import Mathlib

/-!
# Verification of the Uthgard Herald alerting worker

A shallow embedding, in Lean 4, of the transition-detection and delivery
engine of the Uthgard Herald Cloudflare worker (the first document of
`src/unnamed/part_005`), together with theorems settling the frozen claims
about it.

Modelling conventions, used uniformly below:

* Wall-clock instants are `Int` milliseconds since the Unix epoch.  The
  source stores instants as ISO-8601 strings (`Date#toISOString`) and reads
  them back with `Date.parse`; these two are mutually inverse on the range
  of instants involved, so `Int` milliseconds is a faithful representation
  and string equality of ISO stamps coincides with `Int` equality.
* The Cloudflare KV namespace is modelled as an association list from a
  `Key` ADT to values, each entry carrying an optional absolute expiry
  instant (`put` with `expirationTtl: s` expires the entry `s * 1000`
  milliseconds after the put).  The `Key` constructors stand one-for-one
  for the string key patterns of the source (`own:{id}`, `ua:state:{id}`,
  ...); the string schema is prefix-disjoint across patterns and the
  interpolated ids/realms contain no `:`, so distinct constructor
  applications always denote distinct string keys and conversely.
* KV values are strings in the source.  Values the worker writes are
  either string literals (`"0"`, `"1"`, realm names) or `String(n)` for an
  integer `n`, read back with `Number(...)`; `Val.n n` stands for the
  string `String(n)` (with `Number` recovering `n` exactly) and `Val.s`
  for everything else.
* `Date.now()` is passed explicitly as a `now : Int` parameter, constant
  within one embedded invocation, exactly as the wall clock is (to
  millisecond granularity) within one tick.
* Webhook delivery (`sendEmbedsCaptureWithFallback` /
  `sendEmbedsUAWithFallback`) is abstracted as a boolean oracle indexed by
  the batch-slice number: its internals only touch `discord:*` pacing
  bookkeeping, disjoint from all keys the claims are about.
-/

set_option autoImplicit false

/-- Realms are the three literal strings of the source union type
`type Realm = "Albion" | "Midgard" | "Hibernia"`; we keep them as strings
because the worker compares and stores them as strings. -/
abbrev Realm := String

/-- `Event.kind` of the source. -/
inductive EvKind
  | captured
  | underAttack
  | claimed
  | upgraded
  | relicMoved
  | other
  deriving DecidableEq, Repr

/-- The source `Event` record (fields not produced by the parser are
omitted).  `atMs` renders the source field `at` (`at` is reserved in
Lean); it is the parsed instant, see the header comment. -/
structure Event where
  atMs : Int
  kind : EvKind
  keepId : String
  keepName : String
  newOwner : Option Realm := none
  raw : String := ""
  leader : Option String := none
  deriving DecidableEq, Repr

/-- The source `Keep` record (the `type`/`claimedAt` fields, constant in
the parser, are omitted from the state the claims touch but kept for the
canonical hash). -/
structure Keep where
  id : String
  name : String
  owner : Realm
  underAttack : Bool
  headerUnderAttack : Bool
  level : Option Int := none
  claimedBy : Option String := none
  emblem : Option String := none
  lastEvent : Option Int := none
  deriving DecidableEq, Repr

/-- The source `WarmapData` snapshot. -/
structure WarmapData where
  updatedAt : Int
  keeps : List Keep
  events : List Event
  dfOwner : Realm
  deriving DecidableEq, Repr

/-- Per-tick configuration, i.e. the environment variables the embedded
functions read.  `none` models an unset variable; the numeric defaults are
applied at the use sites exactly as in the source (`Number(env.X ?? "d")`). -/
structure Config where
  attackWindowMin : Option Int := none
  captureWindowMin : Option Int := none
  activitySessionMin : Option Int := none
  activityBigDelta : Option Int := none
  activityRepingMin : Option Int := none
  strictDeliveryEnv : String := "0"
  captureWebhooks : Nat := 1
  uaWebhooks : Nat := 1
  deriving Repr

/-- The KV key schema (section 3 of the spec; key builders of the source).
Each constructor denotes the string key pattern in its comment. -/
inductive Key
  | own (id : String)                                    -- own:{id}
  | uaState (id : String)                                -- ua:state:{id}
  | uaStart (id : String)                                -- alert:ua:start:{id}
  | uaSuppress (id : String)                             -- ua:suppress:{id}
  | uaClaim (id : String) (stamp : Int)                  -- ua:claim:{id}:{stamp}
  | alertUnder (id : String) (stamp : Int)               -- alert:under:{id}:{stamp}
  | uaNobanner (id : String)                             -- alert:ua:nobanner:{id}
  | uaHeaderLegacy (id : String)                         -- alert:ua:header:{id}
  | capOnce (id : String) (owner : Realm)                -- cap:once:{id}:{owner}
  | capOnceTransition (id : String) (prev next : Realm)  -- cap:once:{id}:{prev}->{next}
  | capSeen (id : String) (owner : Realm)                -- cap:seen:{id}:{owner}
  | capAny (id : String) (owner : Realm) (bucket : Int)  -- cap:any:{id}:{owner}:{bucket}
  | capClaim (id : String) (owner : Realm) (bucket : Int) -- cap:claim:{id}:{owner}:{bucket}
  | rp (id : String)                                     -- rp:{id}
  | rpActive (id : String)                               -- rp:active:{id}
  | rpLast (id : String)                                 -- rp:last:{id}
  | discordCooldown (path : String)                      -- discord:cooldown:{path}
  | discordLast (path : String)                          -- discord:last:discord:cooldown:{path}
  | discordPenalty (path : String)                       -- discord:penalty:discord:cooldown:{path}
  | discordGlobalLast                                    -- discord:global:last
  | discordGlobalCooldown                                -- discord:global:cooldown_until
  | discordGate (channel : String)                       -- discord:gate:{channel}
  | cooldownSkip (path : String) (t : Int)               -- discord:cooldown:{path}:skip:{t}
  | metric429 (path : String) (t : Int)                  -- discord:429:discord:cooldown:{path}:{t}
  | strictFlag                                           -- flags:strict_delivery
  | warmapKey                                            -- warmap
  deriving DecidableEq, Repr

/-- KV values; `Val.n n` stands for the string `String(n)` (see header). -/
inductive Val
  | s (x : String)
  | n (x : Int)
  deriving DecidableEq, Repr

/-- `Number(v)` on a stored value: exact for values written as `String(n)`;
`none` models `NaN` for non-numeric strings. -/
def Val.toNum : Val → Option Int
  | .n x => some x
  | .s _ => none

/-- One stored KV entry: value plus optional absolute expiry instant. -/
structure KVEntry where
  key : Key
  val : Val
  expiresAt : Option Int
  deriving DecidableEq, Repr

/-- The KV namespace: later entries shadow earlier ones with the same key
(our `put` removes the old entry, so keys are in fact unique). -/
abbrev KV := List KVEntry

/-- First entry stored under `k`, ignoring expiry. -/
def KV.lookupEntry : KV → Key → Option KVEntry
  | [], _ => none
  | e :: es, k => if e.key = k then some e else KV.lookupEntry es k

/-- Erase all entries stored under `k`. -/
def KV.removeKey : KV → Key → KV
  | [], _ => []
  | e :: es, k => if e.key = k then KV.removeKey es k else e :: KV.removeKey es k

/-- `get(key)` at instant `now`: the stored value unless the entry has
expired (`expirationTtl` semantics: dead once `now` reaches the expiry). -/
def KV.get (kv : KV) (now : Int) (k : Key) : Option Val :=
  match KV.lookupEntry kv k with
  | none => none
  | some e =>
    match e.expiresAt with
    | none => some e.val
    | some t => if now < t then some e.val else none

/-- `put(key, v, {expirationTtl: s})` at instant `now` (TTL in seconds). -/
def KV.put (kv : KV) (now : Int) (k : Key) (v : Val) (ttlSec : Option Int) : KV :=
  { key := k, val := v, expiresAt := ttlSec.map (fun s => now + s * 1000) } :: KV.removeKey kv k

/-- `delete(key)`. -/
def KV.del (kv : KV) (k : Key) : KV := KV.removeKey kv k

/-- `safePutIfChanged`: skip the write only when the current live value
already equals `v` and no TTL was requested (source lines 1930-1943). -/
def KV.putIfChanged (kv : KV) (now : Int) (k : Key) (v : Val) (ttlSec : Option Int) : KV :=
  match ttlSec with
  | some _ => kv.put now k v ttlSec
  | none => if kv.get now k = some v then kv else kv.put now k v none

theorem KV.lookupEntry_removeKey_self (kv : KV) (k : Key) :
    KV.lookupEntry (KV.removeKey kv k) k = none := by
  induction kv with
  | nil => rfl
  | cons e es ih =>
    by_cases h : e.key = k <;> simp [KV.removeKey, KV.lookupEntry, h, ih]

theorem KV.lookupEntry_removeKey_ne (kv : KV) (k k' : Key) (h : k' ≠ k) :
    KV.lookupEntry (KV.removeKey kv k) k' = KV.lookupEntry kv k' := by
  induction kv with
  | nil => rfl
  | cons e es ih =>
    by_cases he : e.key = k
    · have hne : ¬ e.key = k' := fun hk => h (by rw [← hk, he])
      simp [KV.removeKey, KV.lookupEntry, he, hne, ih, Ne.symm h]
    · simp [KV.removeKey, KV.lookupEntry, he, ih]

theorem KV.get_put_ne (kv : KV) (now t : Int) (k k' : Key) (v : Val)
    (ttl : Option Int) (h : k' ≠ k) :
    (kv.put now k v ttl).get t k' = kv.get t k' := by
  have hkk : k ≠ k' := fun hk => h hk.symm
  simp [KV.put, KV.get, KV.lookupEntry, hkk,
    KV.lookupEntry_removeKey_ne kv k k' h]

theorem KV.get_put_self_none (kv : KV) (now t : Int) (k : Key) (v : Val) :
    (kv.put now k v none).get t k = some v := by
  simp [KV.put, KV.get, KV.lookupEntry]

theorem KV.get_put_self_ttl (kv : KV) (now t s : Int) (k : Key) (v : Val) :
    (kv.put now k v (some s)).get t k = if t < now + s * 1000 then some v else none := by
  simp [KV.put, KV.get, KV.lookupEntry]

theorem KV.get_del_ne (kv : KV) (t : Int) (k k' : Key) (h : k' ≠ k) :
    (kv.del k).get t k' = kv.get t k' := by
  simp [KV.del, KV.get, KV.lookupEntry_removeKey_ne kv k k' h]

theorem KV.get_del_self (kv : KV) (t : Int) (k : Key) :
    (kv.del k).get t k = none := by
  simp [KV.del, KV.get, KV.lookupEntry_removeKey_self]

theorem KV.get_putIfChanged_ne (kv : KV) (now t : Int) (k k' : Key) (v : Val)
    (ttl : Option Int) (h : k' ≠ k) :
    (kv.putIfChanged now k v ttl).get t k' = kv.get t k' := by
  unfold KV.putIfChanged
  match ttl with
  | some s => exact KV.get_put_ne kv now t k k' v (some s) h
  | none =>
    by_cases hc : kv.get now k = some v <;>
      simp [hc, KV.get_put_ne kv now t k k' v none h]

theorem KV.get_putIfChanged_self_none (kv : KV) (now : Int) (k : Key) (v : Val) :
    (kv.putIfChanged now k v none).get now k = some v := by
  unfold KV.putIfChanged
  by_cases hc : kv.get now k = some v <;>
    simp [hc, KV.get_put_self_none]

/-- A single KV write operation, defunctionalized so that locality lemmas
("this code only writes keys of keep `id`") can be stated once. -/
inductive KOp
  | put (k : Key) (v : Val) (ttl : Option Int)
  | putIf (k : Key) (v : Val) (ttl : Option Int)
  | del (k : Key)
  deriving DecidableEq, Repr

/-- The key an operation touches. -/
def KOp.key : KOp → Key
  | .put k _ _ => k
  | .putIf k _ _ => k
  | .del k => k

/-- Run one operation (`putIf` re-reads the store at application time,
like `safePutIfChanged` does). -/
def KOp.apply (now : Int) (kv : KV) : KOp → KV
  | .put k v ttl => kv.put now k v ttl
  | .putIf k v ttl => kv.putIfChanged now k v ttl
  | .del k => kv.del k

/-- Run a list of operations left to right. -/
def KV.applyOps (now : Int) (ops : List KOp) (kv : KV) : KV :=
  ops.foldl (fun s op => op.apply now s) kv

theorem KOp.get_apply_ne (now t : Int) (kv : KV) (op : KOp) (K : Key)
    (h : op.key ≠ K) : (op.apply now kv).get t K = kv.get t K := by
  cases op with
  | put k v ttl => exact KV.get_put_ne kv now t k K v ttl (fun hk => h hk.symm)
  | putIf k v ttl => exact KV.get_putIfChanged_ne kv now t k K v ttl (fun hk => h hk.symm)
  | del k => exact KV.get_del_ne kv t k K (fun hk => h hk.symm)

theorem KV.get_applyOps_ne (now t : Int) (ops : List KOp) (kv : KV) (K : Key)
    (h : ∀ op ∈ ops, op.key ≠ K) :
    (KV.applyOps now ops kv).get t K = kv.get t K := by
  induction ops generalizing kv with
  | nil => rfl
  | cons op rest ih =>
    rw [KV.applyOps, List.foldl_cons, ← KV.applyOps]
    rw [ih (op.apply now kv) (fun o ho => h o (List.mem_cons_of_mem op ho))]
    exact KOp.get_apply_ne now t kv op K (h op (List.mem_cons_self op rest))

-- ---------------------------------------------------------------------
-- Small helpers of the source
-- ---------------------------------------------------------------------

/-- `minuteBucketIso` / the bucket computation of `capClaimKey` and
`capDedupKey`: `d.setSeconds(0, 0)` floors the instant to its minute
(the worker runs in UTC, whose minute boundaries are multiples of 60000 ms). -/
def minuteBucket (t : Int) : Int := t - t % 60000

/-- `UA_SUPPRESS_AFTER_CAPTURE_SEC` (source line 97). -/
def UA_SUPPRESS_AFTER_CAPTURE_SEC : Int := 120

/-- `CAP_ONCE_TTL_SEC` (source line 910). -/
def CAP_ONCE_TTL_SEC : Int := 20 * 60

/-- `captureWindowMs` (source lines 264-267). -/
def captureWindowMs (cfg : Config) : Int :=
  max 1 (cfg.captureWindowMin.getD 12) * 60000

/-- JS whitespace as far as `.trim()` on the worker's flag values goes. -/
def isWsChar (c : Char) : Bool :=
  c = ' ' || c = '\t' || c = '\n' || c = '\r'

/-- `String.prototype.trim()`: strip leading and trailing whitespace. -/
def jsTrim (s : String) : String :=
  ⟨((s.data.dropWhile isWsChar).reverse.dropWhile isWsChar).reverse⟩

/-- `getStrictDelivery` (source lines 312-316): KV override
`flags:strict_delivery` first, else the `STRICT_DELIVERY` env var,
trimmed and compared against `"1"`. -/
def getStrictDelivery (kv : KV) (now : Int) (cfg : Config) : Bool :=
  let v := match kv.get now Key.strictFlag with
    | some (.s x) => x
    | some (.n x) => toString x
    | none => cfg.strictDeliveryEnv
  jsTrim v = "1"

/-- `getPenalty` (source lines 153-157): `Number(raw)` with `NaN`/negative
floored to 0.  (`Val.toNum = none` models `NaN`.) -/
def getPenalty (kv : KV) (now : Int) (url : String) : Int :=
  match kv.get now (Key.discordPenalty url) with
  | none => 0
  | some v =>
    match v.toNum with
    | some m => max 0 m
    | none => 0

/-- `bumpPenalty` (source lines 159-162): store `min(n+1, 4)` with a
30-minute TTL. -/
def bumpPenalty (kv : KV) (now : Int) (url : String) : KV :=
  kv.put now (Key.discordPenalty url) (.n (min (getPenalty kv now url + 1) 4))
    (some (30 * 60))

/-- `clearPenalty` (source lines 164-166). -/
def clearPenalty (kv : KV) (url : String) : KV :=
  kv.del (Key.discordPenalty url)

/-- `setDiscordCooldown` (source lines 327-331): the value is the ISO
stamp of `now + secs*1000` (stored here as the instant itself), TTL
`ceil(secs) + 1` seconds (`ceil` is the identity on integers). -/
def setDiscordCooldown (kv : KV) (now : Int) (url : String) (secs : Int) : KV :=
  kv.put now (Key.discordCooldown url) (.n (now + secs * 1000)) (some (secs + 1))

/-- `discordCooldownActive` (source lines 318-325). -/
def discordCooldownActive (kv : KV) (now : Int) (url : String) : Bool :=
  match kv.get now (Key.discordCooldown url) with
  | some v =>
    match v.toNum with
    | some until_ => now < until_
    | none => false
  | none => false

/-- `setGlobalCooldown` (source lines 378-381). -/
def setGlobalCooldown (kv : KV) (now : Int) (secs : Int) : KV :=
  kv.put now Key.discordGlobalCooldown (.n (now + secs * 1000)) (some (secs + 1))

/-- `globalCooldownActive` (source lines 374-377). -/
def globalCooldownActive (kv : KV) (now : Int) : Bool :=
  match kv.get now Key.discordGlobalCooldown with
  | some v =>
    match v.toNum with
    | some until_ => now < until_
    | none => false
  | none => false

/-- `noteCooldownSkip` (source lines 362-365). -/
def noteCooldownSkip (kv : KV) (now : Int) (url : String) : KV :=
  kv.put now (Key.cooldownSkip url now) (.s "1") (some 3600)

/-- `note429` (source lines 367-370): records the backoff seconds under a
timestamped metric key, 1-hour TTL. -/
def note429 (kv : KV) (now : Int) (url : String) (secs : Int) : KV :=
  kv.put now (Key.metric429 url now) (.n secs) (some 3600)

/-- `noteWebhookSent` (source lines 1194-1198). -/
def noteWebhookSent (kv : KV) (now : Int) (url : String) : KV :=
  kv.put now (Key.discordLast url) (.n now) (some 3600)

/-- `noteGlobalSent` (source lines 147-149). -/
def noteGlobalSent (kv : KV) (now : Int) : KV :=
  kv.put now Key.discordGlobalLast (.n now) (some 3600)

-- ---------------------------------------------------------------------
-- Capture paths (alertOnOwnershipChanges / alertOnRecentCapturesFromEvents)
-- ---------------------------------------------------------------------

/-- The raw string a stored value denotes (`Val.n x` stands for
`String(x)`). -/
def Val.asString : Val → String
  | .s x => x
  | .n x => toString x

/-- `ev.newOwner!` interpolated into key templates: a missing owner would
be rendered as the string `"undefined"` by TS template strings. -/
def Event.newOwnerD (e : Event) : Realm := e.newOwner.getD "undefined"

/-- The capture embed title (source lines 851-857 / 2009-2015). -/
def mkCaptureTitle (keepName : String) (owner : Realm) (leader : Option String) : String :=
  let suffix := match leader with
    | some l => " — led by " ++ l
    | none => ""
  "🏰 " ++ keepName ++ " was captured by " ++ owner ++ suffix

/-- One queued capture with everything its `onOk` closure captured. -/
structure CapItem where
  keepId : String
  newOwner : Realm
  atMs : Int
  prevOwner : Option Realm := none
  title : String := ""
  deriving DecidableEq, Repr

/-- Result of one capture path: final store, queued batch, and the items
of successfully delivered slices. -/
structure CapRun where
  kv : KV
  batch : List CapItem
  sent : List CapItem
  deriving Repr

/-- The per-event body of the `alertOnRecentCapturesFromEvents` loop
(source lines 1989-2028): freshness window, the four unified dedupe/claim
gates, then claim-and-queue.  (`Number.isNaN(atMs)` cannot hit: parsed
instants are integers here.) -/
def eventsQueueStep (cfg : Config) (now : Int) (acc : KV × List CapItem)
    (ev : Event) : KV × List CapItem :=
  let kv := acc.1
  if ev.kind ≠ EvKind.captured then acc
  else if now - ev.atMs > captureWindowMs cfg then acc
  else
    let o := ev.newOwnerD
    if (kv.get now (Key.capOnce ev.keepId o)).isSome then acc
    else if (kv.get now (Key.capAny ev.keepId o (minuteBucket ev.atMs))).isSome then acc
    else if (kv.get now (Key.capSeen ev.keepId o)).isSome then acc
    else if (kv.get now (Key.capClaim ev.keepId o (minuteBucket ev.atMs))).isSome then acc
    else
      (kv.putIfChanged now (Key.capClaim ev.keepId o (minuteBucket ev.atMs)) (.s "1") (some 120),
       acc.2 ++ [{ keepId := ev.keepId, newOwner := o, atMs := ev.atMs,
                   title := mkCaptureTitle ev.keepName o ev.leader }])

/-- The `onOk` closure of the events path (source lines 2019-2026 plus
`applyPostCaptureState`, lines 1976-1984): stamp `cap:seen`, `cap:any`,
`cap:once`, drop the UA session, force `ua:state` to `"0"`, set the
120-second `ua:suppress`. -/
def eventsOnOk (now : Int) (it : CapItem) (kv : KV) : KV :=
  let kv := kv.putIfChanged now (Key.capSeen it.keepId it.newOwner) (.s "1") (some CAP_ONCE_TTL_SEC)
  let kv := kv.putIfChanged now (Key.capAny it.keepId it.newOwner (minuteBucket it.atMs)) (.s "1") (some (6 * 60 * 60))
  let kv := kv.putIfChanged now (Key.capOnce it.keepId it.newOwner) (.s "1") (some CAP_ONCE_TTL_SEC)
  let kv := kv.del (Key.uaStart it.keepId)
  let kv := kv.putIfChanged now (Key.uaState it.keepId) (.s "0") none
  kv.putIfChanged now (Key.uaSuppress it.keepId) (.s "1") (some UA_SUPPRESS_AFTER_CAPTURE_SEC)

/-- The send loop shared by both capture paths (source lines 875-891 and
2030-2046): slice the batch by 10, deliver each slice (`deliver i` is the
outcome of `sendEmbedsCaptureWithFallback` for slice number `i`), run the
`onOk` side effects when delivery succeeded — or also on failure when
strict delivery is off — and leave state untouched on failure when strict
delivery is on.  Returns the store and the items of delivered slices. -/
def processCapBatch (_now : Int) (strict : Bool) (onOk : CapItem → KV → KV)
    (deliver : Nat → Bool) (items : List CapItem) (kv : KV) :
    KV × List CapItem :=
  (List.range ((items.length + 9) / 10)).foldl
    (fun acc i =>
      let slice := (items.drop (10 * i)).take 10
      let ok := deliver i
      let kv1 := if ok || !strict then slice.foldl (fun s it => onOk it s) acc.1 else acc.1
      (kv1, acc.2 ++ if ok then slice else []))
    (kv, [])

/-- `alertOnRecentCapturesFromEvents` (source lines 1968-2048). -/
def alertOnRecentCapturesFromEvents (cfg : Config) (now : Int)
    (deliver : Nat → Bool) (payload : WarmapData) (kv : KV) : CapRun :=
  let strict := getStrictDelivery kv now cfg
  let queued := payload.events.foldl (eventsQueueStep cfg now) (kv, [])
  if 0 < queued.2.length ∧ 0 < cfg.captureWebhooks then
    let out := processCapBatch now strict (eventsOnOk now) deliver queued.2 queued.1
    ⟨out.1, queued.2, out.2⟩
  else ⟨queued.1, queued.2, []⟩

/-- The most recent `captured` event for a keep id: the per-id content of
the `recentCapturedByKeep` map (source lines 781-789; strictly newer
events replace, ties keep the earlier row). -/
def mostRecentCaptured (events : List Event) (id : String) : Option Event :=
  events.foldl (fun acc e =>
    if e.kind = EvKind.captured ∧ e.keepId = id then
      match acc with
      | none => some e
      | some prior => if e.atMs > prior.atMs then some e else acc
    else acc) none

/-- `prevOwnerById` (source line 792): `new Map(...)`, so a later keep
with the same id shadows an earlier one. -/
def prevOwnerById (prev : Option WarmapData) (id : String) : Option Realm :=
  match prev with
  | none => none
  | some w => (w.keeps.reverse.find? (fun k => k.id == id)).map Keep.owner

/-- The per-keep body of the `alertOnOwnershipChanges` loop (source lines
808-871): baseline seed on first sighting, silent advance when the flip is
unchanged / uncorroborated / deduped / lost the claim, else claim and
queue. -/
def ownershipStep (cfg : Config) (now : Int) (prev : Option WarmapData)
    (events : List Event) (acc : KV × List CapItem) (k : Keep) : KV × List CapItem :=
  let kv := acc.1
  let batch := acc.2
  let baseline : Option Realm :=
    match kv.get now (Key.own k.id) with
    | some v => some v.asString
    | none => prevOwnerById prev k.id
  match baseline with
  | none => (kv.put now (Key.own k.id) (.s k.owner) none, batch)
  | some b =>
    if b = k.owner then acc
    else
      let advance : KV × List CapItem := (kv.put now (Key.own k.id) (.s k.owner) none, batch)
      match mostRecentCaptured events k.id with
      | none => advance
      | some ev =>
        if now - ev.atMs > captureWindowMs cfg then advance
        else if (kv.get now (Key.capOnceTransition k.id b k.owner)).isSome then advance
        else if (kv.get now (Key.capOnce k.id k.owner)).isSome then advance
        else if (kv.get now (Key.capAny k.id k.owner (minuteBucket ev.atMs))).isSome then advance
        else if (kv.get now (Key.capSeen k.id k.owner)).isSome then advance
        else if (kv.get now (Key.capClaim k.id k.owner (minuteBucket ev.atMs))).isSome then advance
        else
          (kv.putIfChanged now (Key.capClaim k.id k.owner (minuteBucket ev.atMs)) (.s "1") (some 120),
           batch ++ [{ keepId := k.id, newOwner := k.owner, atMs := ev.atMs, prevOwner := some b,
                       title := mkCaptureTitle k.name k.owner ev.leader }])

/-- The `onOk` closure of the ownership path (source lines 861-869 plus
`applyPostCaptureStateAndBaseline`, lines 794-803): the events-path stamps
plus the transition once-key, and the baseline advance to the new owner. -/
def ownershipOnOk (now : Int) (it : CapItem) (kv : KV) : KV :=
  let kv := kv.putIfChanged now (Key.capSeen it.keepId it.newOwner) (.s "1") (some CAP_ONCE_TTL_SEC)
  let kv := kv.putIfChanged now (Key.capAny it.keepId it.newOwner (minuteBucket it.atMs)) (.s "1") (some (6 * 60 * 60))
  let kv := kv.putIfChanged now (Key.capOnce it.keepId it.newOwner) (.s "1") (some CAP_ONCE_TTL_SEC)
  let kv := match it.prevOwner with
    | some p => kv.putIfChanged now (Key.capOnceTransition it.keepId p it.newOwner) (.s "1") (some CAP_ONCE_TTL_SEC)
    | none => kv
  let kv := kv.put now (Key.own it.keepId) (.s it.newOwner) none
  let kv := kv.del (Key.uaStart it.keepId)
  let kv := kv.putIfChanged now (Key.uaState it.keepId) (.s "0") none
  kv.putIfChanged now (Key.uaSuppress it.keepId) (.s "1") (some UA_SUPPRESS_AFTER_CAPTURE_SEC)

/-- `alertOnOwnershipChanges` (source lines 774-893). -/
def alertOnOwnershipChanges (cfg : Config) (now : Int) (deliver : Nat → Bool)
    (payload : WarmapData) (prev : Option WarmapData) (kv : KV) : CapRun :=
  let strict := getStrictDelivery kv now cfg
  let queued := payload.keeps.foldl (ownershipStep cfg now prev payload.events) (kv, [])
  if 0 < queued.2.length ∧ 0 < cfg.captureWebhooks then
    let out := processCapBatch now strict (ownershipOnOk now) deliver queued.2 queued.1
    ⟨out.1, queued.2, out.2⟩
  else ⟨queued.1, queued.2, []⟩

-- ---------------------------------------------------------------------
-- UA transition detector (alertOnUnderAttackTransitions)
-- ---------------------------------------------------------------------

/-- `!!(prevRaw && prevRaw !== "0")`: the `ua:state` value counts as "on"
when present and not the string `"0"` (a stored `String(Date.now())` is
`"0"` only for instant 0). -/
def valIsOn : Option Val → Bool
  | none => false
  | some (.s x) => x ≠ "" && x ≠ "0"
  | some (.n t) => t ≠ 0

/-- Which UA path queued an embed. -/
inductive UAPathKind
  | header
  | fallback
  deriving DecidableEq, Repr

/-- One queued UA embed with what its `onOk` closure captured. -/
structure UAItem where
  keepId : String
  stamp : Int
  kind : UAPathKind
  deriving DecidableEq, Repr

/-- Result of the UA detector: final store, queued batch, delivered items. -/
structure UARun where
  kv : KV
  batch : List UAItem
  sent : List UAItem
  deriving Repr

/-- The per-keep body of the header (banner) loop of
`alertOnUnderAttackTransitions` (source lines 1008-1083). -/
def uaHeaderStep (now : Int) (updatedAt ttlSec : Int) (acc : KV × List UAItem)
    (k : Keep) : KV × List UAItem :=
  let kv := acc.1
  let batch := acc.2
  let prevOn := valIsOn (kv.get now (Key.uaState k.id))
  let curr := k.headerUnderAttack
  let hasSession := (kv.get now (Key.uaStart k.id)).isSome
  if (kv.get now (Key.uaSuppress k.id)).isSome then
    (((kv.putIfChanged now (Key.uaState k.id) (.s "0") none).del (Key.uaStart k.id)), batch)
  else if curr && !prevOn then
    let stamp := minuteBucket updatedAt
    if hasSession || (kv.get now (Key.alertUnder k.id stamp)).isSome then
      (kv.putIfChanged now (Key.uaState k.id) (.n now) (some ttlSec), batch)
    else if (kv.get now (Key.uaClaim k.id stamp)).isSome then acc
    else
      (kv.putIfChanged now (Key.uaClaim k.id stamp) (.s "1") (some 120),
       batch ++ [{ keepId := k.id, stamp := stamp, kind := .header }])
  else if curr && prevOn then
    let kv1 := kv.putIfChanged now (Key.uaState k.id) (.n now) (some ttlSec)
    let kv2 := if hasSession then kv1.putIfChanged now (Key.uaStart k.id) (.s "1") (some ttlSec) else kv1
    (kv2, batch)
  else if !curr && prevOn then
    ((((kv.putIfChanged now (Key.uaState k.id) (.s "0") none).del (Key.uaStart k.id)).del
        (Key.uaHeaderLegacy k.id)), batch)
  else acc

/-- `new Map(keeps.map(k => [k.id, k]))`: later keeps shadow earlier ones. -/
def keepById (keeps : List Keep) (id : String) : Option Keep :=
  keeps.reverse.find? (fun k => k.id == id)

/-- The per-event body of the fallback (events-table) loop of
`alertOnUnderAttackTransitions` (source lines 1092-1136). -/
def uaFallbackStep (now : Int) (keeps : List Keep) (acc : KV × List UAItem)
    (ev : Event) : KV × List UAItem :=
  let kv := acc.1
  let batch := acc.2
  if ev.kind ≠ EvKind.underAttack then acc
  else
    match keepById keeps ev.keepId with
    | none => acc
    | some k =>
      if k.headerUnderAttack then acc
      else if (kv.get now (Key.uaSuppress k.id)).isSome then acc
      else
        let stampFB := minuteBucket ev.atMs
        if (kv.get now (Key.uaNobanner ev.keepId)).isSome then acc
        else if (kv.get now (Key.alertUnder ev.keepId stampFB)).isSome then acc
        else if (kv.get now (Key.uaClaim ev.keepId stampFB)).isSome then acc
        else
          (kv.putIfChanged now (Key.uaClaim ev.keepId stampFB) (.s "1") (some 120),
           batch ++ [{ keepId := ev.keepId, stamp := stampFB, kind := .fallback }])

/-- The `onOk` closure of a queued UA embed (source lines 1060-1065 for
the header path, 1128-1134 for the fallback path). -/
def uaOnOk (now ttlSec suppressTtl : Int) (it : UAItem) (kv : KV) : KV :=
  match it.kind with
  | .header =>
    let kv := kv.putIfChanged now (Key.uaStart it.keepId) (.s "1") (some ttlSec)
    let kv := kv.putIfChanged now (Key.alertUnder it.keepId it.stamp) (.s "1") (some (6 * 60 * 60))
    kv.putIfChanged now (Key.uaState it.keepId) (.n now) (some ttlSec)
  | .fallback =>
    let kv := kv.putIfChanged now (Key.uaNobanner it.keepId) (.s "1") (some suppressTtl)
    let kv := kv.putIfChanged now (Key.alertUnder it.keepId it.stamp) (.s "1") (some (6 * 60 * 60))
    let kv := kv.putIfChanged now (Key.uaStart it.keepId) (.s "1") (some ttlSec)
    kv.putIfChanged now (Key.uaState it.keepId) (.n now) (some ttlSec)

/-- The UA send loop (source lines 1139-1150): slices of 10, delivered
slices run their `onOk`s; there is no strict-delivery branch here. -/
def processUABatch (now ttlSec suppressTtl : Int) (deliver : Nat → Bool)
    (items : List UAItem) (kv : KV) : KV × List UAItem :=
  (List.range ((items.length + 9) / 10)).foldl
    (fun acc i =>
      let slice := (items.drop (10 * i)).take 10
      let ok := deliver i
      let kv1 := if ok then slice.foldl (fun s it => uaOnOk now ttlSec suppressTtl it s) acc.1
                 else acc.1
      (kv1, acc.2 ++ if ok then slice else []))
    (kv, [])

/-- `alertOnUnderAttackTransitions` (source lines 988-1154). -/
def alertOnUnderAttackTransitions (cfg : Config) (now : Int)
    (deliver : Nat → Bool) (payload : WarmapData) (kv : KV) : UARun :=
  let windowMin := cfg.attackWindowMin.getD 7
  let ttlSec := windowMin * 240
  let suppressTtl := windowMin * 60
  let afterHeader := payload.keeps.foldl (uaHeaderStep now payload.updatedAt ttlSec) (kv, [])
  let queued := payload.events.foldl (uaFallbackStep now payload.keeps) afterHeader
  if 0 < queued.2.length ∧ 0 < cfg.uaWebhooks then
    let out := processUABatch now ttlSec suppressTtl deliver queued.2 queued.1
    ⟨out.1, queued.2, out.2⟩
  else ⟨queued.1, queued.2, []⟩

/-- The alerting stages of one tick, in the order `updateWarmap` runs them
(source lines 2090-2094): UA transitions, then ownership changes, then
recent-capture events.  Returns the final store and what each capture path
delivered. -/
def tickAlerts (cfg : Config) (now : Int) (deliverUA deliverOwn deliverEv : Nat → Bool)
    (payload : WarmapData) (prev : Option WarmapData) (kv : KV) :
    KV × UARun × CapRun × CapRun :=
  let ua := alertOnUnderAttackTransitions cfg now deliverUA payload kv
  let own := alertOnOwnershipChanges cfg now deliverOwn payload prev ua.kv
  let ev := alertOnRecentCapturesFromEvents cfg now deliverEv payload own.kv
  (ev.kv, ua, own, ev)

-- ---------------------------------------------------------------------
-- C1
-- ---------------------------------------------------------------------

/-- The cold-start tick of the claim: instant of tick 1. -/
def c1Now : Int := 1000000000000

/-- Keep `caer-benowyc` owned by Midgard, as parsed on the cold-start tick. -/
def c1Keep : Keep :=
  { id := "caer-benowyc", name := "Caer Benowyc", owner := "Midgard",
    underAttack := false, headerUnderAttack := false }

/-- A `captured` event for that keep at `now - 2m`. -/
def c1Event : Event :=
  { atMs := c1Now - 120000, kind := .captured, keepId := "caer-benowyc",
    keepName := "Caer Benowyc", newOwner := some "Midgard" }

/-- The cold-start snapshot of the claim. -/
def c1Payload : WarmapData :=
  { updatedAt := c1Now, keeps := [c1Keep], events := [c1Event], dfOwner := "Midgard" }

/-- C1, counterexample: on a cold start (empty KV, no previous snapshot),
a tick whose snapshot contains keep `caer-benowyc` and a fresh `captured`
event for it 2 minutes old DOES deliver a capture alert — the
recent-capture-event path runs with no baseline short-circuit — even
though `own:caer-benowyc` was unset when the tick began (conjunct 2). -/
theorem c1_counterexample :
    (tickAlerts {} c1Now (fun _ => true) (fun _ => true) (fun _ => true)
        c1Payload none []).2.2.2.sent ≠ [] ∧
      KV.get [] c1Now (Key.own "caer-benowyc") = none := by
  constructor
  · decide
  · rfl

/-- C1 (amended): the ownership-change path alone obeys the first-sighting
rule: for a keep whose baseline `own:{id}` is unset and which the previous
snapshot does not cover either, the path queues and delivers no capture
alert and only seeds `own:{id}` to the current owner.  (The
recent-capture-event path does not consult the baseline, so the tick as a
whole can still alert; see the counterexample.) -/
theorem c1_first_sighting_seeds_no_alert (cfg : Config) (now : Int)
    (deliver : Nat → Bool) (prev : Option WarmapData) (kv : KV) (k : Keep)
    (events : List Event) (updatedAt : Int) (dfo : Realm)
    (hbase : kv.get now (Key.own k.id) = none)
    (hprev : prevOwnerById prev k.id = none) :
    (alertOnOwnershipChanges cfg now deliver ⟨updatedAt, [k], events, dfo⟩ prev kv).batch = [] ∧
    (alertOnOwnershipChanges cfg now deliver ⟨updatedAt, [k], events, dfo⟩ prev kv).sent = [] ∧
    ∀ t, (alertOnOwnershipChanges cfg now deliver ⟨updatedAt, [k], events, dfo⟩ prev kv).kv.get t
        (Key.own k.id) = some (.s k.owner) := by
  have hstep : ownershipStep cfg now prev events (kv, []) k =
      (kv.put now (Key.own k.id) (.s k.owner) none, []) := by
    unfold ownershipStep
    simp [hbase, hprev]
  unfold alertOnOwnershipChanges
  simp [hstep, KV.get_put_self_none]

/-- Witness for the amended C1 theorem at a concrete input. -/
theorem c1_first_sighting_seeds_no_alert_witness :
    (KV.get [] c1Now (Key.own c1Keep.id) = none) ∧
    (prevOwnerById none c1Keep.id = none) ∧
    (alertOnOwnershipChanges {} c1Now (fun _ => true)
        ⟨c1Now, [c1Keep], [c1Event], "Midgard"⟩ none []).batch = [] := by
  refine ⟨rfl, rfl, ?_⟩
  exact (c1_first_sighting_seeds_no_alert {} c1Now (fun _ => true) none [] c1Keep
    [c1Event] c1Now "Midgard" rfl rfl).1

-- ---------------------------------------------------------------------
-- C5
-- ---------------------------------------------------------------------

/-- C5: in the recent-capture-event path the freshness gate is
`now - at > captureWindowMs` (source lines 1992-1993), so a `captured`
event exactly `captureWindowMin` minutes old is still eligible to alert
(it is queued on an empty store), while an event one second older than
that is not (nothing is queued). -/
theorem c5_capture_window_boundary (cfg : Config) (now m upd upd' : Int)
    (dfo dfo' : Realm) (deliver deliver' : Nat → Bool)
    (ks ks' : List Keep) (ev ev' : Event)
    (hm : cfg.captureWindowMin = some m) (h1 : 1 ≤ m)
    (hk : ev.kind = .captured) (hat : ev.atMs = now - m * 60000)
    (hk' : ev'.kind = .captured) (hat' : ev'.atMs = now - m * 60000 - 1000) :
    (alertOnRecentCapturesFromEvents cfg now deliver ⟨upd, ks, [ev], dfo⟩ []).batch ≠ [] ∧
    (alertOnRecentCapturesFromEvents cfg now deliver' ⟨upd', ks', [ev'], dfo'⟩ []).batch = [] := by
  have hwin : captureWindowMs cfg = m * 60000 := by
    unfold captureWindowMs
    rw [hm]
    simp [Option.getD, max_eq_right h1]
  have hfresh : ¬ (now - ev.atMs > captureWindowMs cfg) := by
    rw [hwin, hat]; omega
  have hstale : now - ev'.atMs > captureWindowMs cfg := by
    rw [hwin, hat']; omega
  constructor
  · unfold alertOnRecentCapturesFromEvents
    have hq : eventsQueueStep cfg now ([], []) ev =
        (KV.putIfChanged [] now
           (Key.capClaim ev.keepId ev.newOwnerD (minuteBucket ev.atMs)) (.s "1") (some 120),
         [{ keepId := ev.keepId, newOwner := ev.newOwnerD, atMs := ev.atMs,
            title := mkCaptureTitle ev.keepName ev.newOwnerD ev.leader }]) := by
      unfold eventsQueueStep
      simp [hk, hfresh, KV.get, KV.lookupEntry]
    simp only [alertOnRecentCapturesFromEvents, List.foldl_cons, List.foldl_nil, hq]
    split <;> simp
  · unfold alertOnRecentCapturesFromEvents
    have hq : eventsQueueStep cfg now ([], []) ev' = ([], []) := by
      unfold eventsQueueStep
      simp [hk', hstale]
    simp [hq]

/-- Witness for C5 at the default window (12 minutes). -/
theorem c5_capture_window_boundary_witness :
    ({ captureWindowMin := some 12 : Config}.captureWindowMin = some 12) ∧
    (alertOnRecentCapturesFromEvents { captureWindowMin := some 12 } 1000000000000
        (fun _ => true)
        ⟨1000000000000, [],
         [{ atMs := 1000000000000 - 12 * 60000, kind := .captured, keepId := "caer-benowyc",
            keepName := "Caer Benowyc", newOwner := some "Midgard" }], "Midgard"⟩ []).batch ≠ [] := by
  refine ⟨rfl, ?_⟩
  exact (c5_capture_window_boundary { captureWindowMin := some 12 } 1000000000000 12
    1000000000000 1000000000000 "Midgard" "Midgard" (fun _ => true) (fun _ => true) [] []
    { atMs := 1000000000000 - 12 * 60000, kind := .captured, keepId := "caer-benowyc",
      keepName := "Caer Benowyc", newOwner := some "Midgard" }
    { atMs := 1000000000000 - 12 * 60000 - 1000, kind := .captured, keepId := "caer-benowyc",
      keepName := "Caer Benowyc", newOwner := some "Midgard" }
    rfl (by norm_num) rfl rfl rfl rfl).1

-- ---------------------------------------------------------------------
-- C4: step lemmas for the UA detector
-- ---------------------------------------------------------------------

theorem uaHeaderStep_suppressed (now upd ttl : Int) (acc : KV × List UAItem) (k : Keep)
    (hs : (acc.1.get now (Key.uaSuppress k.id)).isSome) :
    uaHeaderStep now upd ttl acc k =
      ((acc.1.putIfChanged now (Key.uaState k.id) (.s "0") none).del (Key.uaStart k.id),
       acc.2) := by
  unfold uaHeaderStep
  simp [hs]

/-- The header step only writes keys derived from its keep's id; any other
key reads back unchanged. -/
theorem uaHeaderStep_get_other (now upd ttl t : Int) (acc : KV × List UAItem)
    (k : Keep) (K : Key)
    (h1 : K ≠ Key.uaState k.id) (h2 : K ≠ Key.uaStart k.id)
    (h3 : ∀ s, K ≠ Key.uaClaim k.id s)
    (h5 : K ≠ Key.uaHeaderLegacy k.id) :
    (uaHeaderStep now upd ttl acc k).1.get t K = acc.1.get t K := by
  unfold uaHeaderStep
  dsimp only
  split
  · rw [KV.get_del_ne _ _ _ _ h2, KV.get_putIfChanged_ne _ _ _ _ _ _ _ h1]
  · split
    · split
      · rw [KV.get_putIfChanged_ne _ _ _ _ _ _ _ h1]
      · split
        · rfl
        · rw [KV.get_putIfChanged_ne _ _ _ _ _ _ _ (h3 _)]
    · split
      · split
        · rw [KV.get_putIfChanged_ne _ _ _ _ _ _ _ h2,
            KV.get_putIfChanged_ne _ _ _ _ _ _ _ h1]
        · rw [KV.get_putIfChanged_ne _ _ _ _ _ _ _ h1]
      · split
        · rw [KV.get_del_ne _ _ _ _ h5, KV.get_del_ne _ _ _ _ h2,
            KV.get_putIfChanged_ne _ _ _ _ _ _ _ h1]
        · rfl

/-- Items the header step appends always carry its keep's id. -/
theorem uaHeaderStep_items (now upd ttl : Int) (acc : KV × List UAItem) (k : Keep) :
    ∀ it ∈ (uaHeaderStep now upd ttl acc k).2, it ∈ acc.2 ∨ it.keepId = k.id := by
  intro it hit
  unfold uaHeaderStep at hit
  dsimp only at hit
  split at hit
  · exact Or.inl hit
  · split at hit
    · split at hit
      · exact Or.inl hit
      · split at hit
        · exact Or.inl hit
        · simp at hit
          rcases hit with h | h
          · exact Or.inl h
          · right
            rw [h]
    · split at hit
      · exact Or.inl hit
      · split at hit
        · exact Or.inl hit
        · exact Or.inl hit

/-- The forcing effect of an active suppressor on a keep's header step:
`ua:state` is written to `"0"` and the session key is deleted. -/
theorem uaHeaderStep_forced (now upd ttl : Int) (acc : KV × List UAItem) (k : Keep)
    (hs : (acc.1.get now (Key.uaSuppress k.id)).isSome) :
    (uaHeaderStep now upd ttl acc k).1.get now (Key.uaState k.id) = some (.s "0") ∧
    (uaHeaderStep now upd ttl acc k).1.get now (Key.uaStart k.id) = none ∧
    (uaHeaderStep now upd ttl acc k).2 = acc.2 := by
  rw [uaHeaderStep_suppressed now upd ttl acc k hs]
  refine ⟨?_, KV.get_del_self _ _ _, rfl⟩
  rw [KV.get_del_ne _ _ _ _ (by intro h; exact Key.noConfusion h)]
  exact KV.get_putIfChanged_self_none _ _ _ _

/-- The fallback step only ever writes `ua:claim:*` keys. -/
theorem uaFallbackStep_get_other (now t : Int) (keeps : List Keep)
    (acc : KV × List UAItem) (ev : Event) (K : Key)
    (h : ∀ x s, K ≠ Key.uaClaim x s) :
    (uaFallbackStep now keeps acc ev).1.get t K = acc.1.get t K := by
  unfold uaFallbackStep
  dsimp only
  split
  · rfl
  · split
    · rfl
    · split
      · rfl
      · split
        · rfl
        · split
          · rfl
          · split
            · rfl
            · split
              · rfl
              · dsimp only
                exact KV.get_putIfChanged_ne _ _ _ _ _ _ _ (h _ _)

/-- Items appended by the fallback step carry the event's keep id, and no
item is appended for a keep whose suppressor is live. -/
theorem uaFallbackStep_items (now : Int) (keeps : List Keep)
    (acc : KV × List UAItem) (ev : Event) (id : String)
    (hs : (acc.1.get now (Key.uaSuppress id)).isSome) :
    ∀ it ∈ (uaFallbackStep now keeps acc ev).2, it ∈ acc.2 ∨ it.keepId ≠ id := by
  intro it hit
  unfold uaFallbackStep at hit
  dsimp only at hit
  split at hit
  · exact Or.inl hit
  · split at hit
    · exact Or.inl hit
    · rename_i k hfound
      split at hit
      · exact Or.inl hit
      · split at hit
        · exact Or.inl hit
        · rename_i hnosup
          split at hit
          · exact Or.inl hit
          · split at hit
            · exact Or.inl hit
            · split at hit
              · exact Or.inl hit
              · simp at hit
                rcases hit with h | h
                · exact Or.inl h
                · right
                  rw [h]
                  -- if the event were for `id`, the suppressor check would
                  -- have stopped the step: `keepById` returns a keep whose
                  -- id is the looked-up one.
                  intro hid
                  have hid' : ev.keepId = id := hid
                  have hkid : k.id = ev.keepId := by
                    unfold keepById at hfound
                    simpa using List.find?_some hfound
                  simp only [hkid, hid'] at hnosup
                  exact hnosup hs

/-- A delivered UA `onOk` only writes keys derived from its item's keep id. -/
theorem uaOnOk_get_other (now ttl sup t : Int) (it : UAItem) (kv : KV) (K : Key)
    (h1 : K ≠ Key.uaState it.keepId) (h2 : K ≠ Key.uaStart it.keepId)
    (h3 : ∀ s, K ≠ Key.alertUnder it.keepId s) (h4 : K ≠ Key.uaNobanner it.keepId) :
    (uaOnOk now ttl sup it kv).get t K = kv.get t K := by
  unfold uaOnOk
  match it with
  | { keepId := kid, stamp := st, kind := .header } =>
    dsimp only
    rw [KV.get_putIfChanged_ne _ _ _ _ _ _ _ h1,
      KV.get_putIfChanged_ne _ _ _ _ _ _ _ (h3 _),
      KV.get_putIfChanged_ne _ _ _ _ _ _ _ h2]
  | { keepId := kid, stamp := st, kind := .fallback } =>
    dsimp only
    rw [KV.get_putIfChanged_ne _ _ _ _ _ _ _ h1,
      KV.get_putIfChanged_ne _ _ _ _ _ _ _ h2,
      KV.get_putIfChanged_ne _ _ _ _ _ _ _ (h3 _),
      KV.get_putIfChanged_ne _ _ _ _ _ _ _ h4]

/-- Fold invariant for the header loop under a live suppressor: the
suppressor stays, no embed for the suppressed keep is queued, and once
(or as soon as) some keep in the list carries the suppressed id its
`ua:state` is forced to `"0"` with the session key gone. -/
theorem uaHeaderFold (now upd ttl : Int) (id : String) (keeps : List Keep) :
    ∀ acc : KV × List UAItem,
    (acc.1.get now (Key.uaSuppress id)).isSome →
    (((keeps.foldl (uaHeaderStep now upd ttl) acc).1.get now (Key.uaSuppress id)).isSome ∧
     (∀ it ∈ (keeps.foldl (uaHeaderStep now upd ttl) acc).2, it ∈ acc.2 ∨ it.keepId ≠ id) ∧
     ((∃ k ∈ keeps, k.id = id) →
        (keeps.foldl (uaHeaderStep now upd ttl) acc).1.get now (Key.uaState id) = some (.s "0") ∧
        (keeps.foldl (uaHeaderStep now upd ttl) acc).1.get now (Key.uaStart id) = none) ∧
     ((acc.1.get now (Key.uaState id) = some (.s "0") ∧ acc.1.get now (Key.uaStart id) = none) →
        (keeps.foldl (uaHeaderStep now upd ttl) acc).1.get now (Key.uaState id) = some (.s "0") ∧
        (keeps.foldl (uaHeaderStep now upd ttl) acc).1.get now (Key.uaStart id) = none)) := by
  induction keeps with
  | nil =>
    intro acc hs
    exact ⟨hs, fun it hit => Or.inl hit, by simp, fun h => h⟩
  | cons k ks ih =>
    intro acc hs
    rw [List.foldl_cons]
    have hsup_pres : ∀ t, (uaHeaderStep now upd ttl acc k).1.get t (Key.uaSuppress id) =
        acc.1.get t (Key.uaSuppress id) :=
      fun t => uaHeaderStep_get_other now upd ttl t acc k _
        (fun h => Key.noConfusion h) (fun h => Key.noConfusion h)
        (fun _ h => Key.noConfusion h) (fun h => Key.noConfusion h)
    have hs' : ((uaHeaderStep now upd ttl acc k).1.get now (Key.uaSuppress id)).isSome := by
      rw [hsup_pres]; exact hs
    obtain ⟨c1, c2, c3, c4⟩ := ih (uaHeaderStep now upd ttl acc k) hs'
    by_cases hid : k.id = id
    · -- the suppressed keep itself: its step forces and queues nothing
      subst hid
      have hf := uaHeaderStep_forced now upd ttl acc k hs
      refine ⟨c1, ?_, ?_, ?_⟩
      · intro it hit
        rcases c2 it hit with hin | hne
        · rw [hf.2.2] at hin
          exact Or.inl hin
        · exact Or.inr hne
      · intro _
        exact c4 ⟨hf.1, hf.2.1⟩
      · intro _
        exact c4 ⟨hf.1, hf.2.1⟩
    · -- an unrelated keep: nothing of the suppressed keep's keys is touched
      have hstate_pres : (uaHeaderStep now upd ttl acc k).1.get now (Key.uaState id) =
          acc.1.get now (Key.uaState id) :=
        uaHeaderStep_get_other now upd ttl now acc k _
          (by intro h; rw [Key.uaState.injEq] at h; exact (hid h.symm).elim)
          (fun h => Key.noConfusion h) (fun _ h => Key.noConfusion h)
          (fun h => Key.noConfusion h)
      have hstart_pres : (uaHeaderStep now upd ttl acc k).1.get now (Key.uaStart id) =
          acc.1.get now (Key.uaStart id) :=
        uaHeaderStep_get_other now upd ttl now acc k _
          (fun h => Key.noConfusion h)
          (by intro h; rw [Key.uaStart.injEq] at h; exact (hid h.symm).elim)
          (fun _ h => Key.noConfusion h) (fun h => Key.noConfusion h)
      refine ⟨c1, ?_, ?_, ?_⟩
      · intro it hit
        rcases c2 it hit with hin | hne
        · rcases uaHeaderStep_items now upd ttl acc k it hin with hin' | heq
          · exact Or.inl hin'
          · exact Or.inr (heq ▸ hid)
        · exact Or.inr hne
      · rintro ⟨k', hk', hk'id⟩
        rcases List.mem_cons.mp hk' with rfl | htail
        · exact (hid hk'id).elim
        · exact c3 ⟨k', htail, hk'id⟩
      · intro hforced
        exact c4 ⟨hstate_pres ▸ hforced.1, hstart_pres ▸ hforced.2⟩

/-- Fold invariant for the fallback loop: it writes only `ua:claim:*`
keys, and under a live suppressor no embed for that keep is appended. -/
theorem uaFallbackFold (now : Int) (keeps : List Keep) (events : List Event)
    (id : String) :
    ∀ acc : KV × List UAItem,
    (acc.1.get now (Key.uaSuppress id)).isSome →
    (((events.foldl (uaFallbackStep now keeps) acc).1.get now (Key.uaSuppress id)).isSome ∧
     (∀ it ∈ (events.foldl (uaFallbackStep now keeps) acc).2, it ∈ acc.2 ∨ it.keepId ≠ id) ∧
     (∀ t K, (∀ x s, K ≠ Key.uaClaim x s) →
        (events.foldl (uaFallbackStep now keeps) acc).1.get t K = acc.1.get t K)) := by
  induction events with
  | nil => exact fun acc hs => ⟨hs, fun it hit => Or.inl hit, fun _ _ _ => rfl⟩
  | cons ev evs ih =>
    intro acc hs
    rw [List.foldl_cons]
    have hpres : ∀ t K, (∀ x s, K ≠ Key.uaClaim x s) →
        (uaFallbackStep now keeps acc ev).1.get t K = acc.1.get t K :=
      fun t K hK => uaFallbackStep_get_other now t keeps acc ev K hK
    have hs' : ((uaFallbackStep now keeps acc ev).1.get now (Key.uaSuppress id)).isSome := by
      rw [hpres now _ (fun _ _ h => Key.noConfusion h)]; exact hs
    obtain ⟨c1, c2, c3⟩ := ih (uaFallbackStep now keeps acc ev) hs'
    refine ⟨c1, ?_, ?_⟩
    · intro it hit
      rcases c2 it hit with hin | hne
      · exact uaFallbackStep_items now keeps acc ev id hs it hin
      · exact Or.inr hne
    · intro t K hK
      rw [c3 t K hK, hpres t K hK]

/-- The UA send loop leaves any key alone that every delivered item's
`onOk` leaves alone. -/
theorem processUABatch_preserved (now ttl sup t : Int) (deliver : Nat → Bool)
    (items : List UAItem) (kv : KV) (K : Key)
    (h : ∀ it ∈ items, ∀ kv', (uaOnOk now ttl sup it kv').get t K = kv'.get t K) :
    (processUABatch now ttl sup deliver items kv).1.get t K = kv.get t K := by
  have hfold : ∀ (l : List UAItem), (∀ it ∈ l, it ∈ items) → ∀ kv0 : KV,
      (l.foldl (fun s it => uaOnOk now ttl sup it s) kv0).get t K = kv0.get t K := by
    intro l
    induction l with
    | nil => intro _ kv0; rfl
    | cons b bs ihl =>
      intro hsub kv0
      rw [List.foldl_cons, ihl (fun it hit => hsub it (List.mem_cons_of_mem b hit))]
      exact h b (hsub b (List.mem_cons_self b bs)) kv0
  unfold processUABatch
  generalize List.range ((items.length + 9) / 10) = idxs
  suffices hgen : ∀ (idxs : List Nat) (acc : KV × List UAItem),
      ((idxs.foldl (fun acc i =>
          let slice := (items.drop (10 * i)).take 10
          let ok := deliver i
          let kv1 := if ok then slice.foldl (fun s it => uaOnOk now ttl sup it s) acc.1 else acc.1
          (kv1, acc.2 ++ if ok then slice else [])) acc).1).get t K = acc.1.get t K by
    exact hgen idxs (kv, [])
  intro idxs
  induction idxs with
  | nil => intro acc; rfl
  | cons i rest ihr =>
    intro acc
    rw [List.foldl_cons, ihr]
    dsimp only
    split
    · exact hfold _ (fun it hit => List.mem_of_mem_drop (List.mem_of_mem_take hit)) acc.1
    · rfl

/-- Everything the UA send loop reports as delivered came from the batch. -/
theorem processUABatch_sent_sub (now ttl sup : Int) (deliver : Nat → Bool)
    (items : List UAItem) (kv : KV) :
    ∀ it ∈ (processUABatch now ttl sup deliver items kv).2, it ∈ items := by
  unfold processUABatch
  generalize List.range ((items.length + 9) / 10) = idxs
  suffices hgen : ∀ (idxs : List Nat) (acc : KV × List UAItem),
      (∀ it ∈ acc.2, it ∈ items) →
      ∀ it ∈ (idxs.foldl (fun acc i =>
          let slice := (items.drop (10 * i)).take 10
          let ok := deliver i
          let kv1 := if ok then slice.foldl (fun s it => uaOnOk now ttl sup it s) acc.1 else acc.1
          (kv1, acc.2 ++ if ok then slice else [])) acc).2, it ∈ items by
    exact hgen idxs (kv, []) (by simp)
  intro idxs
  induction idxs with
  | nil => exact fun acc h => h
  | cons i rest ihr =>
    intro acc hacc
    rw [List.foldl_cons]
    refine ihr _ ?_
    intro it hit
    dsimp only at hit
    rcases List.mem_append.mp hit with h1 | h2
    · exact hacc it h1
    · split at h2
      · exact List.mem_of_mem_drop (List.mem_of_mem_take h2)
      · cases h2

/-- C4: while `ua:suppress:{id}` is live in KV, a tick's UA detector
(source lines 988-1154) queues and delivers no under-attack embed for
keep `id` — on neither the banner path (lines 1016-1023) nor the
event-driven fallback path (lines 1092-1098) — and instead forces
`ua:state:{id}` to `"0"` and deletes the session key
`alert:ua:start:{id}`. -/
theorem c4_suppressor_blocks_ua (cfg : Config) (now : Int) (deliver : Nat → Bool)
    (payload : WarmapData) (kv : KV) (id : String)
    (hs : (kv.get now (Key.uaSuppress id)).isSome)
    (hk : ∃ k ∈ payload.keeps, k.id = id) :
    (∀ it ∈ (alertOnUnderAttackTransitions cfg now deliver payload kv).batch, it.keepId ≠ id) ∧
    (∀ it ∈ (alertOnUnderAttackTransitions cfg now deliver payload kv).sent, it.keepId ≠ id) ∧
    (alertOnUnderAttackTransitions cfg now deliver payload kv).kv.get now (Key.uaState id) =
      some (.s "0") ∧
    (alertOnUnderAttackTransitions cfg now deliver payload kv).kv.get now (Key.uaStart id) =
      none := by
  unfold alertOnUnderAttackTransitions
  dsimp only
  obtain ⟨h1, h2, h3, _h4⟩ :=
    uaHeaderFold now payload.updatedAt (cfg.attackWindowMin.getD 7 * 240) id payload.keeps
      (kv, []) hs
  obtain ⟨_f1, f2, f3⟩ :=
    uaFallbackFold now payload.keeps payload.events id
      (payload.keeps.foldl (uaHeaderStep now payload.updatedAt
        (cfg.attackWindowMin.getD 7 * 240)) (kv, [])) h1
  have hbatchNoId : ∀ it ∈ (payload.events.foldl (uaFallbackStep now payload.keeps)
      (payload.keeps.foldl (uaHeaderStep now payload.updatedAt
        (cfg.attackWindowMin.getD 7 * 240)) (kv, []))).2, it.keepId ≠ id := by
    intro it hit
    rcases f2 it hit with hin | hne
    · rcases h2 it hin with hnil | hne'
      · cases hnil
      · exact hne'
    · exact hne
  have hforced : (payload.events.foldl (uaFallbackStep now payload.keeps)
        (payload.keeps.foldl (uaHeaderStep now payload.updatedAt
          (cfg.attackWindowMin.getD 7 * 240)) (kv, []))).1.get now (Key.uaState id) =
        some (.s "0") ∧
      (payload.events.foldl (uaFallbackStep now payload.keeps)
        (payload.keeps.foldl (uaHeaderStep now payload.updatedAt
          (cfg.attackWindowMin.getD 7 * 240)) (kv, []))).1.get now (Key.uaStart id) = none := by
    obtain ⟨hst, hse⟩ := h3 hk
    constructor
    · rw [f3 now _ (fun _ _ h => Key.noConfusion h)]; exact hst
    · rw [f3 now _ (fun _ _ h => Key.noConfusion h)]; exact hse
  have honok_state : ∀ it ∈ (payload.events.foldl (uaFallbackStep now payload.keeps)
      (payload.keeps.foldl (uaHeaderStep now payload.updatedAt
        (cfg.attackWindowMin.getD 7 * 240)) (kv, []))).2,
      ∀ kv', (uaOnOk now (cfg.attackWindowMin.getD 7 * 240) (cfg.attackWindowMin.getD 7 * 60)
        it kv').get now (Key.uaState id) = kv'.get now (Key.uaState id) := by
    intro it hit kv'
    refine uaOnOk_get_other _ _ _ _ it kv' _ ?_ (fun h => Key.noConfusion h)
      (fun _ h => Key.noConfusion h) (fun h => Key.noConfusion h)
    intro h
    rw [Key.uaState.injEq] at h
    exact hbatchNoId it hit h.symm
  have honok_start : ∀ it ∈ (payload.events.foldl (uaFallbackStep now payload.keeps)
      (payload.keeps.foldl (uaHeaderStep now payload.updatedAt
        (cfg.attackWindowMin.getD 7 * 240)) (kv, []))).2,
      ∀ kv', (uaOnOk now (cfg.attackWindowMin.getD 7 * 240) (cfg.attackWindowMin.getD 7 * 60)
        it kv').get now (Key.uaStart id) = kv'.get now (Key.uaStart id) := by
    intro it hit kv'
    refine uaOnOk_get_other _ _ _ _ it kv' _ (fun h => Key.noConfusion h) ?_
      (fun _ h => Key.noConfusion h) (fun h => Key.noConfusion h)
    intro h
    rw [Key.uaStart.injEq] at h
    exact hbatchNoId it hit h.symm
  split
  · refine ⟨hbatchNoId, ?_, ?_, ?_⟩
    · intro it hit
      exact hbatchNoId it (processUABatch_sent_sub _ _ _ _ _ _ it hit)
    · rw [processUABatch_preserved _ _ _ _ _ _ _ _ honok_state]
      exact hforced.1
    · rw [processUABatch_preserved _ _ _ _ _ _ _ _ honok_start]
      exact hforced.2
  · exact ⟨hbatchNoId, fun it hit => absurd hit (List.not_mem_nil it), hforced.1, hforced.2⟩

/-- Witness for C4: a keep with a live suppressor and a flaming banner
plus a fresh UA event — no embed queued, state forced. -/
theorem c4_suppressor_blocks_ua_witness :
    ((KV.put [] 1000000000000 (Key.uaSuppress "caer-benowyc") (.s "1")
        (some 120)).get 1000000000000 (Key.uaSuppress "caer-benowyc")).isSome = true ∧
    (∀ it ∈ (alertOnUnderAttackTransitions {} 1000000000000 (fun _ => true)
        ⟨1000000000000,
         [{ id := "caer-benowyc", name := "Caer Benowyc", owner := "Midgard",
            underAttack := true, headerUnderAttack := true }],
         [{ atMs := 1000000000000, kind := .underAttack, keepId := "caer-benowyc",
            keepName := "Caer Benowyc" }], "Midgard"⟩
        (KV.put [] 1000000000000 (Key.uaSuppress "caer-benowyc") (.s "1") (some 120))).batch,
      it.keepId ≠ "caer-benowyc") := by
  constructor
  · decide
  · exact (c4_suppressor_blocks_ua {} 1000000000000 (fun _ => true)
      ⟨1000000000000,
       [{ id := "caer-benowyc", name := "Caer Benowyc", owner := "Midgard",
          underAttack := true, headerUnderAttack := true }],
       [{ atMs := 1000000000000, kind := .underAttack, keepId := "caer-benowyc",
          keepName := "Caer Benowyc" }], "Midgard"⟩
      (KV.put [] 1000000000000 (Key.uaSuppress "caer-benowyc") (.s "1") (some 120))
      "caer-benowyc" (by decide)
      ⟨{ id := "caer-benowyc", name := "Caer Benowyc", owner := "Midgard",
         underAttack := true, headerUnderAttack := true }, by simp, rfl⟩).1

-- ---------------------------------------------------------------------
-- C2: strict delivery
-- ---------------------------------------------------------------------

/-- The events-path queue step writes nothing but `cap:claim:*` keys. -/
theorem eventsQueueStep_get_other (cfg : Config) (now t : Int)
    (acc : KV × List CapItem) (ev : Event) (K : Key)
    (h : ∀ x o b, K ≠ Key.capClaim x o b) :
    (eventsQueueStep cfg now acc ev).1.get t K = acc.1.get t K := by
  unfold eventsQueueStep
  dsimp only
  split
  · rfl
  · split
    · rfl
    · split
      · rfl
      · split
        · rfl
        · split
          · rfl
          · split
            · rfl
            · dsimp only
              exact KV.get_putIfChanged_ne _ _ _ _ _ _ _ (h _ _ _)

/-- Hence the whole events-path queue phase does. -/
theorem eventsQueueFold_get_other (cfg : Config) (now : Int) (events : List Event) :
    ∀ (acc : KV × List CapItem) (t : Int) (K : Key),
    (∀ x o b, K ≠ Key.capClaim x o b) →
    ((events.foldl (eventsQueueStep cfg now) acc).1).get t K = acc.1.get t K := by
  induction events with
  | nil => intro acc t K _; rfl
  | cons ev evs ih =>
    intro acc t K hK
    rw [List.foldl_cons, ih _ t K hK]
    exact eventsQueueStep_get_other cfg now t acc ev K hK

/-- With strict delivery on and every slice failing, the send loop is a
no-op: no `onOk` runs and nothing is reported delivered. -/
theorem processCapBatch_strict_fail (now : Int) (onOk : CapItem → KV → KV)
    (deliver : Nat → Bool) (items : List CapItem) (kv : KV)
    (hfail : ∀ i, deliver i = false) :
    processCapBatch now true onOk deliver items kv = (kv, []) := by
  unfold processCapBatch
  generalize List.range ((items.length + 9) / 10) = idxs
  suffices hgen : ∀ (idxs : List Nat) (acc : KV × List CapItem),
      idxs.foldl (fun acc i =>
        let slice := (items.drop (10 * i)).take 10
        let ok := deliver i
        let kv1 := if ok || !true then slice.foldl (fun s it => onOk it s) acc.1 else acc.1
        (kv1, acc.2 ++ if ok then slice else [])) acc = acc by
    exact hgen idxs (kv, [])
  intro idxs
  induction idxs with
  | nil => intro acc; rfl
  | cons i rest ihr =>
    intro acc
    rw [List.foldl_cons]
    have hstep : (let slice := (items.drop (10 * i)).take 10
        let ok := deliver i
        let kv1 := if ok || !true then slice.foldl (fun s it => onOk it s) acc.1 else acc.1
        (kv1, acc.2 ++ if ok then slice else [])) = acc := by
      dsimp only
      rw [hfail i]
      simp
    rw [hstep, ihr]

/-- The ownership-path loop body writes nothing outside its keep's
baseline key and claim keys. -/
theorem ownershipStep_get_other (cfg : Config) (now t : Int)
    (prev : Option WarmapData) (events : List Event)
    (acc : KV × List CapItem) (k : Keep) (K : Key)
    (h1 : K ≠ Key.own k.id) (h2 : ∀ o b, K ≠ Key.capClaim k.id o b) :
    (ownershipStep cfg now prev events acc k).1.get t K = acc.1.get t K := by
  unfold ownershipStep
  dsimp only
  split
  · exact KV.get_put_ne _ _ _ _ _ _ _ h1
  · split
    · rfl
    · split
      · exact KV.get_put_ne _ _ _ _ _ _ _ h1
      · split
        · exact KV.get_put_ne _ _ _ _ _ _ _ h1
        · split
          · exact KV.get_put_ne _ _ _ _ _ _ _ h1
          · split
            · exact KV.get_put_ne _ _ _ _ _ _ _ h1
            · split
              · exact KV.get_put_ne _ _ _ _ _ _ _ h1
              · split
                · exact KV.get_put_ne _ _ _ _ _ _ _ h1
                · split
                  · exact KV.get_put_ne _ _ _ _ _ _ _ h1
                  · dsimp only
                    exact KV.get_putIfChanged_ne _ _ _ _ _ _ _ (h2 _ _)

/-- Items appended by the ownership-path loop body carry its keep's id,
and when an item is appended the step leaves `own:{id}` alone (only the
`cap:claim` write happens before the batch is sent). -/
theorem ownershipStep_char (cfg : Config) (now : Int)
    (prev : Option WarmapData) (events : List Event)
    (acc : KV × List CapItem) (k : Keep) :
    (∀ it ∈ (ownershipStep cfg now prev events acc k).2, it ∈ acc.2 ∨ it.keepId = k.id) ∧
    ((ownershipStep cfg now prev events acc k).2 ≠ acc.2 →
      ∀ t, (ownershipStep cfg now prev events acc k).1.get t (Key.own k.id) =
        acc.1.get t (Key.own k.id)) := by
  unfold ownershipStep
  dsimp only
  split
  · exact ⟨fun it hit => Or.inl hit, fun hne => absurd rfl hne⟩
  · split
    · exact ⟨fun it hit => Or.inl hit, fun hne => absurd rfl hne⟩
    · split
      · exact ⟨fun it hit => Or.inl hit, fun hne => absurd rfl hne⟩
      · split
        · exact ⟨fun it hit => Or.inl hit, fun hne => absurd rfl hne⟩
        · split
          · exact ⟨fun it hit => Or.inl hit, fun hne => absurd rfl hne⟩
          · split
            · exact ⟨fun it hit => Or.inl hit, fun hne => absurd rfl hne⟩
            · split
              · exact ⟨fun it hit => Or.inl hit, fun hne => absurd rfl hne⟩
              · split
                · exact ⟨fun it hit => Or.inl hit, fun hne => absurd rfl hne⟩
                · split
                  · exact ⟨fun it hit => Or.inl hit, fun hne => absurd rfl hne⟩
                  · refine ⟨?_, ?_⟩
                    · intro it hit
                      simp only [List.mem_append, List.mem_singleton] at hit
                      rcases hit with h | h
                      · exact Or.inl h
                      · exact Or.inr (by rw [h])
                    · intro _ t
                      show (acc.1.putIfChanged now
                          (Key.capClaim k.id k.owner (minuteBucket _)) (Val.s "1")
                          (some 120)).get t (Key.own k.id) = acc.1.get t (Key.own k.id)
                      refine KV.get_putIfChanged_ne _ _ _ _ _ _ _ ?_
                      intro h
                      exact Key.noConfusion h

/-- The ownership loop never writes outside `own:*` and `cap:claim:*`. -/
theorem ownershipFold_get_other (cfg : Config) (now : Int) (prev : Option WarmapData)
    (events : List Event) (keeps : List Keep) :
    ∀ (acc : KV × List CapItem) (t : Int) (K : Key),
    (∀ x, K ≠ Key.own x) → (∀ x o b, K ≠ Key.capClaim x o b) →
    (keeps.foldl (ownershipStep cfg now prev events) acc).1.get t K = acc.1.get t K := by
  induction keeps with
  | nil => intro acc t K _ _; rfl
  | cons k ks ih =>
    intro acc t K hKo hKc
    rw [List.foldl_cons, ih _ t K hKo hKc]
    exact ownershipStep_get_other cfg now t prev events acc k K (hKo k.id)
      (fun o b => hKc k.id o b)

/-- Fold invariant for the ownership loop: outside `own:*` and
`cap:claim:*` nothing changes, queued items come from the keep list, and
— when keep ids are distinct — the baseline `own:{id}` of every queued
item is left exactly as it was when the loop started. -/
theorem ownershipFold (cfg : Config) (now : Int) (prev : Option WarmapData)
    (events : List Event) (keeps : List Keep) :
    ∀ acc : KV × List CapItem,
    (∀ it ∈ acc.2, it.keepId ∉ keeps.map Keep.id) →
    (keeps.map Keep.id).Nodup →
    ((∀ t K, (∀ x, K ≠ Key.own x) → (∀ x o b, K ≠ Key.capClaim x o b) →
        (keeps.foldl (ownershipStep cfg now prev events) acc).1.get t K = acc.1.get t K) ∧
     (∀ it ∈ (keeps.foldl (ownershipStep cfg now prev events) acc).2,
        it ∈ acc.2 ∨ it.keepId ∈ keeps.map Keep.id) ∧
     (∀ it ∈ (keeps.foldl (ownershipStep cfg now prev events) acc).2, ∀ t,
        (keeps.foldl (ownershipStep cfg now prev events) acc).1.get t (Key.own it.keepId) =
          acc.1.get t (Key.own it.keepId))) := by
  induction keeps with
  | nil =>
    intro acc _ _
    exact ⟨fun _ _ _ _ => rfl, fun it hit => Or.inl hit, fun _ _ _ => rfl⟩
  | cons k ks ih =>
    intro acc hold hnd
    have hchar := ownershipStep_char cfg now prev events acc k
    have hnd0 := hnd
    rw [List.map_cons, List.nodup_cons] at hnd0
    have hnotin : k.id ∉ ks.map Keep.id := hnd0.1
    have hold' : ∀ it ∈ (ownershipStep cfg now prev events acc k).2,
        it.keepId ∉ ks.map Keep.id := by
      intro it hit
      rcases hchar.1 it hit with hin | heq
      · intro hmem
        exact hold it hin (by simp [hmem])
      · rw [heq]
        exact hnotin
    have hnd' : (ks.map Keep.id).Nodup := hnd0.2
    obtain ⟨i1, i2, i3⟩ := ih (ownershipStep cfg now prev events acc k) hold' hnd'
    rw [List.foldl_cons]
    refine ⟨?_, ?_, ?_⟩
    · intro t K hKo hKc
      rw [i1 t K hKo hKc]
      exact ownershipStep_get_other cfg now t prev events acc k K (hKo k.id)
        (fun o b => hKc k.id o b)
    · intro it hit
      rcases i2 it hit with hin | hmem
      · rcases hchar.1 it hin with hin' | heq
        · exact Or.inl hin'
        · exact Or.inr (by simp [heq])
      · exact Or.inr (by simp [hmem])
    · intro it hit t
      rw [i3 it hit t]
      by_cases hin : it ∈ acc.2
      · have hne : it.keepId ≠ k.id := by
          intro h
          exact hold it hin (by simp [h])
        exact ownershipStep_get_other cfg now t prev events acc k _
          (by intro h; rw [Key.own.injEq] at h; exact hne h)
          (fun _ _ h => Key.noConfusion h)
      · rcases i2 it hit with hin' | hmem
        · have hne : (ownershipStep cfg now prev events acc k).2 ≠ acc.2 := by
            intro h
            rw [h] at hin'
            exact hin hin'
          rcases hchar.1 it hin' with hin'' | heq
          · exact absurd hin'' hin
          · rw [heq]
            exact hchar.2 hne t
        · have hne : it.keepId ≠ k.id := fun h => hnotin (h ▸ hmem)
          exact ownershipStep_get_other cfg now t prev events acc k _
            (by intro h; rw [Key.own.injEq] at h; exact hne h)
            (fun _ _ h => Key.noConfusion h)

/-- When a fresh `captured` event passes all four gates, the events-path
queue step appends exactly its capture item. -/
theorem eventsQueueStep_queues (cfg : Config) (now : Int) (kv : KV)
    (batch : List CapItem) (ev : Event)
    (hk : ev.kind = .captured) (hfresh : ¬ (now - ev.atMs > captureWindowMs cfg))
    (hg1 : kv.get now (Key.capOnce ev.keepId ev.newOwnerD) = none)
    (hg2 : kv.get now (Key.capAny ev.keepId ev.newOwnerD (minuteBucket ev.atMs)) = none)
    (hg3 : kv.get now (Key.capSeen ev.keepId ev.newOwnerD) = none)
    (hg4 : kv.get now (Key.capClaim ev.keepId ev.newOwnerD (minuteBucket ev.atMs)) = none) :
    (eventsQueueStep cfg now (kv, batch) ev).2 =
      batch ++ [{ keepId := ev.keepId, newOwner := ev.newOwnerD, atMs := ev.atMs,
                  title := mkCaptureTitle ev.keepName ev.newOwnerD ev.leader }] := by
  unfold eventsQueueStep
  simp [hk, hfresh, hg1, hg2, hg3, hg4]

/-- C2: with `flags:strict_delivery == "1"` in KV and delivery of the
capture batch failing on every slice (every endpoint exhausted, the
delivery oracle constantly `false`), no post-success side effect runs for
the queued items: in the events path (source 2030-2046) no key outside
the short-lived `cap:claim:*` claims changes — so `cap:seen`/`cap:any`/
`cap:once` stay unstamped, `alert:ua:start` survives, `ua:state` and
`ua:suppress` are untouched; in the ownership path (source 875-891)
additionally the baseline `own:{id}` of every queued keep keeps its old
value (only non-queued keeps get their silent baseline advance).  A later
events-path run over the post-failure store therefore queues the capture
again as soon as its claim bucket is free and the (unchanged) gates are
clear — the retry the strict flag is for. -/
theorem c2_strict_delivery_no_side_effects (cfg : Config) (now : Int)
    (deliver deliver' : Nat → Bool) (payload : WarmapData)
    (prev : Option WarmapData) (kv : KV)
    (hstrict : kv.get now Key.strictFlag = some (.s "1"))
    (hfail : ∀ i, deliver i = false) (hfail' : ∀ i, deliver' i = false) :
    ((alertOnRecentCapturesFromEvents cfg now deliver payload kv).sent = [] ∧
     ∀ t K, (∀ x o b, K ≠ Key.capClaim x o b) →
       (alertOnRecentCapturesFromEvents cfg now deliver payload kv).kv.get t K =
         kv.get t K) ∧
    ((alertOnOwnershipChanges cfg now deliver' payload prev kv).sent = [] ∧
     (∀ t K, (∀ x, K ≠ Key.own x) → (∀ x o b, K ≠ Key.capClaim x o b) →
        (alertOnOwnershipChanges cfg now deliver' payload prev kv).kv.get t K =
          kv.get t K) ∧
     ((payload.keeps.map Keep.id).Nodup →
        ∀ it ∈ (alertOnOwnershipChanges cfg now deliver' payload prev kv).batch, ∀ t,
          (alertOnOwnershipChanges cfg now deliver' payload prev kv).kv.get t
              (Key.own it.keepId) =
            kv.get t (Key.own it.keepId))) ∧
    (∀ (cfg2 : Config) (now2 upd2 : Int) (dfo2 : Realm) (ks2 : List Keep)
       (ev2 : Event) (deliver2 : Nat → Bool),
       ev2.kind = .captured →
       ¬ (now2 - ev2.atMs > captureWindowMs cfg2) →
       kv.get now2 (Key.capOnce ev2.keepId ev2.newOwnerD) = none →
       kv.get now2 (Key.capAny ev2.keepId ev2.newOwnerD (minuteBucket ev2.atMs)) = none →
       kv.get now2 (Key.capSeen ev2.keepId ev2.newOwnerD) = none →
       (alertOnRecentCapturesFromEvents cfg now deliver payload kv).kv.get now2
         (Key.capClaim ev2.keepId ev2.newOwnerD (minuteBucket ev2.atMs)) = none →
       (alertOnRecentCapturesFromEvents cfg2 now2 deliver2 ⟨upd2, ks2, [ev2], dfo2⟩
         (alertOnRecentCapturesFromEvents cfg now deliver payload kv).kv).batch ≠ []) := by
  have hsd : getStrictDelivery kv now cfg = true := by
    unfold getStrictDelivery
    rw [hstrict]
    dsimp only
    decide
  have hev : alertOnRecentCapturesFromEvents cfg now deliver payload kv =
      ⟨(payload.events.foldl (eventsQueueStep cfg now) (kv, [])).1,
       (payload.events.foldl (eventsQueueStep cfg now) (kv, [])).2, []⟩ := by
    unfold alertOnRecentCapturesFromEvents
    rw [hsd]
    dsimp only
    rw [processCapBatch_strict_fail now (eventsOnOk now) deliver _ _ hfail]
    split <;> rfl
  have hown : alertOnOwnershipChanges cfg now deliver' payload prev kv =
      ⟨(payload.keeps.foldl (ownershipStep cfg now prev payload.events) (kv, [])).1,
       (payload.keeps.foldl (ownershipStep cfg now prev payload.events) (kv, [])).2, []⟩ := by
    unfold alertOnOwnershipChanges
    rw [hsd]
    dsimp only
    rw [processCapBatch_strict_fail now (ownershipOnOk now) deliver' _ _ hfail']
    split <;> rfl
  have hevpres : ∀ t K, (∀ x o b, K ≠ Key.capClaim x o b) →
      (alertOnRecentCapturesFromEvents cfg now deliver payload kv).kv.get t K =
        kv.get t K := by
    intro t K hK
    rw [hev]
    exact eventsQueueFold_get_other cfg now payload.events (kv, []) t K hK
  refine ⟨⟨by rw [hev], hevpres⟩, ⟨by rw [hown], ?_, ?_⟩, ?_⟩
  · intro t K hKo hKc
    rw [hown]
    exact ownershipFold_get_other cfg now prev payload.events payload.keeps (kv, []) t K hKo hKc
  · intro hnd it hit t
    rw [hown] at hit ⊢
    exact (ownershipFold cfg now prev payload.events payload.keeps (kv, [])
      (fun it hit => absurd hit (List.not_mem_nil it)) hnd).2.2 it hit t
  · intro cfg2 now2 upd2 dfo2 ks2 ev2 deliver2 hk2 hfresh2 hg1 hg2 hg3 hg4
    have hq := eventsQueueStep_queues cfg2 now2
      (alertOnRecentCapturesFromEvents cfg now deliver payload kv).kv [] ev2 hk2 hfresh2
      (by rw [hevpres now2 _ (fun _ _ _ h => Key.noConfusion h)]; exact hg1)
      (by rw [hevpres now2 _ (fun _ _ _ h => Key.noConfusion h)]; exact hg2)
      (by rw [hevpres now2 _ (fun _ _ _ h => Key.noConfusion h)]; exact hg3)
      hg4
    generalize (alertOnRecentCapturesFromEvents cfg now deliver payload kv).kv = KV2 at hq hg4 ⊢
    unfold alertOnRecentCapturesFromEvents
    dsimp only
    rw [List.foldl_cons, List.foldl_nil]
    split
    · dsimp only
      rw [hq]
      simp
    · dsimp only
      rw [hq]
      simp

/-- Concrete store for the C2 witness: strict flag on, nothing else. -/
def c2Store : KV := KV.put [] 1000000000000 Key.strictFlag (.s "1") none

/-- Concrete snapshot for the C2 witness: one keep, one fresh capture. -/
def c2Payload : WarmapData :=
  { updatedAt := 1000000000000,
    keeps := [{ id := "caer-benowyc", name := "Caer Benowyc", owner := "Midgard",
                underAttack := false, headerUnderAttack := false }],
    events := [{ atMs := 1000000000000 - 120000, kind := .captured,
                 keepId := "caer-benowyc", keepName := "Caer Benowyc",
                 newOwner := some "Midgard" }],
    dfOwner := "Midgard" }

/-- Witness for C2: with the strict flag set and every delivery failing,
the events path delivers nothing and the `cap:seen` gate of the queued
capture is still unset afterwards. -/
theorem c2_strict_delivery_no_side_effects_witness :
    c2Store.get 1000000000000 Key.strictFlag = some (.s "1") ∧
    (alertOnRecentCapturesFromEvents {} 1000000000000 (fun _ => false) c2Payload c2Store).sent
      = [] ∧
    (alertOnRecentCapturesFromEvents {} 1000000000000 (fun _ => false) c2Payload
        c2Store).kv.get 1000000000000 (Key.capSeen "caer-benowyc" "Midgard") =
      c2Store.get 1000000000000 (Key.capSeen "caer-benowyc" "Midgard") := by
  have h := c2_strict_delivery_no_side_effects {} 1000000000000 (fun _ => false)
    (fun _ => false) c2Payload none c2Store (by decide) (fun _ => rfl) (fun _ => rfl)
  exact ⟨by decide, h.1.1,
    h.1.2 1000000000000 (Key.capSeen "caer-benowyc" "Midgard")
      (fun _ _ _ hx => Key.noConfusion hx)⟩

-- ---------------------------------------------------------------------
-- Webhook delivery: postToDiscord (C6) and pacing (C7)
-- ---------------------------------------------------------------------

/-- A parsed 429 JSON body (`JSON.parse` failure is `body = none`). -/
structure RLBody where
  retryAfter : Option Int := none
  globalFlag : Option Bool := none
  deriving Repr

/-- The response fields `postToDiscord` inspects.  Headers are modelled as
parsed numbers (`none` = absent or non-numeric, which `Number(...)` turns
into `NaN`); `globalHdr` is whether `X-RateLimit-Global` equals `"true"`. -/
structure DiscordResp where
  status : Int
  retryAfterHdr : Option Int := none
  resetAfterHdr : Option Int := none
  resetEpochHdr : Option Int := none
  remainingHdr : Option Int := none
  globalHdr : Bool := false
  body : Option RLBody := none
  deriving Repr

/-- The outcome of the `fetch` call: thrown network error or a response. -/
inductive FetchOutcome
  | netError
  | resp (r : DiscordResp)

/-- `parseRetryAfter` (source lines 353-360): `Retry-After` else
`X-RateLimit-Reset-After`; non-positive, missing or non-numeric falls
back to 10 seconds. -/
def parseRetryAfter (r : DiscordResp) : Int :=
  match r.retryAfterHdr.orElse (fun _ => r.resetAfterHdr) with
  | some n => if 0 < n then n else 10
  | none => 10

/-- `readRateHeaders` (source lines 592-605); the epoch fallback divides
`Date.now()` by 1000 (integer floor stands in for the float quotient). -/
def readRateHeaders (r : DiscordResp) (now : Int) : Option Int × Option Int :=
  let resetAfter :=
    match r.resetAfterHdr with
    | some x => some x
    | none => r.resetEpochHdr.map (fun e => max 0 (e - now / 1000))
  (r.remainingHdr, resetAfter)

/-- `postToDiscord` (source lines 383-483) from the point the fetch
outcome is known; the pacing sleeps (lines 406-407) write nothing.
Returns the updated store and the success flag. -/
def postToDiscord (kv : KV) (now : Int) (url : String) (outcome : FetchOutcome) :
    KV × Bool :=
  if globalCooldownActive kv now then (kv, false)
  else if discordCooldownActive kv now url then (noteCooldownSkip kv now url, false)
  else
    match outcome with
    | .netError => (bumpPenalty (setDiscordCooldown kv now url 5) now url, false)
    | .resp r =>
      if r.status = 429 ∨ r.status = 1015 then
        let secs0 := parseRetryAfter r
        let secs :=
          match r.body with
          | some b =>
            match b.retryAfter with
            | some n => if n ≠ 0 then n else secs0  -- `if (Number(j?.retry_after))`
            | none => secs0
          | none => secs0
        let kv1 := if (r.body.bind RLBody.globalFlag) = some true
                   then setGlobalCooldown kv now secs else kv
        let kv2 := if r.globalHdr then setGlobalCooldown kv1 now secs else kv1
        let kv3 := setDiscordCooldown kv2 now url secs
        let kv4 := note429 kv3 now url secs
        (bumpPenalty kv4 now url, false)
      else if 500 ≤ r.status then
        let kv1 :=
          match r.retryAfterHdr with
          | some ra => if 0 < ra then setDiscordCooldown kv now url ra
                       else setDiscordCooldown kv now url 5
          | none => setDiscordCooldown kv now url 5
        (bumpPenalty kv1 now url, false)
      else if ¬ (200 ≤ r.status ∧ r.status ≤ 299) then (kv, false)
      else
        let rh := readRateHeaders r now
        let kv1 :=
          match rh.1 with
          | some rem => if rem ≤ 1
              then setDiscordCooldown kv now url (max 1 (rh.2.getD 1))
              else kv
          | none => kv
        let kv2 := noteWebhookSent kv1 now url
        let kv3 := noteGlobalSent kv2 now
        (clearPenalty kv3 url, true)

theorem KV.lookupEntry_put_self (kv : KV) (now : Int) (k : Key) (v : Val)
    (ttl : Option Int) :
    (kv.put now k v ttl).lookupEntry k =
      some ⟨k, v, ttl.map (fun s => now + s * 1000)⟩ := by
  simp [KV.put, KV.lookupEntry]

theorem KV.lookupEntry_put_ne (kv : KV) (now : Int) (k k' : Key) (v : Val)
    (ttl : Option Int) (h : k' ≠ k) :
    (kv.put now k v ttl).lookupEntry k' = kv.lookupEntry k' := by
  have hkk : ¬ k = k' := fun hk => h hk.symm
  simp [KV.put, KV.lookupEntry, hkk, KV.lookupEntry_removeKey_ne kv k k' h]

theorem getPenalty_nonneg (kv : KV) (now : Int) (url : String) :
    0 ≤ getPenalty kv now url := by
  unfold getPenalty
  split
  · exact le_refl 0
  · split
    · exact le_max_left 0 _
    · exact le_refl 0

/-- `bumpPenalty` stores `min(n+1, 4)` and `getPenalty` reads it straight
back (the fresh 30-minute entry is live). -/
theorem getPenalty_bumpPenalty (kv : KV) (now : Int) (url : String) :
    getPenalty (bumpPenalty kv now url) now url = min (getPenalty kv now url + 1) 4 := by
  have h0 := getPenalty_nonneg kv now url
  rw [show bumpPenalty kv now url = kv.put now (Key.discordPenalty url)
    (.n (min (getPenalty kv now url + 1) 4)) (some (30 * 60)) from rfl]
  generalize hq : min (getPenalty kv now url + 1) 4 = q
  unfold getPenalty
  rw [KV.get_put_self_ttl, if_pos (show now < now + 30 * 60 * 1000 by omega)]
  dsimp only [Val.toNum]
  omega

/-- C6: a 429 whose JSON body carries `{global: true, retry_after: N}`
(N > 0) sets the global cooldown `discord:global:cooldown_until` to
`now + N` seconds (TTL `N+1`) even with the `X-RateLimit-Global` header
absent, besides the per-endpoint cooldown, the 429 metric and the
penalty bump, and reports failure (source lines 429-449, 372-381). -/
theorem c6_global_cooldown_from_body (kv : KV) (now : Int) (url : String)
    (r : DiscordResp) (N : Int)
    (hga : globalCooldownActive kv now = false)
    (hca : discordCooldownActive kv now url = false)
    (hst : r.status = 429)
    (hbody : r.body = some { retryAfter := some N, globalFlag := some true })
    (hgh : r.globalHdr = false)
    (hN : 0 < N) :
    (postToDiscord kv now url (.resp r)).2 = false ∧
    (postToDiscord kv now url (.resp r)).1.lookupEntry Key.discordGlobalCooldown =
      some ⟨Key.discordGlobalCooldown, .n (now + N * 1000), some (now + (N + 1) * 1000)⟩ ∧
    (postToDiscord kv now url (.resp r)).1.lookupEntry (Key.discordCooldown url) =
      some ⟨Key.discordCooldown url, .n (now + N * 1000), some (now + (N + 1) * 1000)⟩ ∧
    getPenalty (postToDiscord kv now url (.resp r)).1 now url =
      min (getPenalty kv now url + 1) 4 ∧
    (postToDiscord kv now url (.resp r)).1.lookupEntry (Key.metric429 url now) =
      some ⟨Key.metric429 url now, .n N, some (now + 3600 * 1000)⟩ := by
  have hpost : postToDiscord kv now url (.resp r) =
      (bumpPenalty (note429 (setDiscordCooldown (setGlobalCooldown kv now N) now url N)
        now url N) now url, false) := by
    unfold postToDiscord
    rw [hga, hca]
    simp only [Bool.false_eq_true, if_false]
    rw [hst]
    simp only [hbody, hgh]
    norm_num
    simp [hN.ne']
  rw [hpost]
  have hpen_pres : getPenalty (note429 (setDiscordCooldown (setGlobalCooldown kv now N)
      now url N) now url N) now url = getPenalty kv now url := by
    unfold getPenalty note429 setDiscordCooldown setGlobalCooldown
    rw [KV.get_put_ne _ _ _ _ _ _ _ (fun h => Key.noConfusion h),
      KV.get_put_ne _ _ _ _ _ _ _ (fun h => Key.noConfusion h),
      KV.get_put_ne _ _ _ _ _ _ _ (fun h => Key.noConfusion h)]
  refine ⟨rfl, ?_, ?_, ?_, ?_⟩
  · unfold bumpPenalty note429 setDiscordCooldown setGlobalCooldown
    rw [KV.lookupEntry_put_ne _ _ _ _ _ _ (fun h => Key.noConfusion h),
      KV.lookupEntry_put_ne _ _ _ _ _ _ (fun h => Key.noConfusion h),
      KV.lookupEntry_put_ne _ _ _ _ _ _ (fun h => Key.noConfusion h)]
    exact KV.lookupEntry_put_self _ _ _ _ _
  · unfold bumpPenalty note429
    rw [KV.lookupEntry_put_ne _ _ _ _ _ _ (fun h => Key.noConfusion h),
      KV.lookupEntry_put_ne _ _ _ _ _ _ (fun h => Key.noConfusion h)]
    unfold setDiscordCooldown
    exact KV.lookupEntry_put_self _ _ _ _ _
  · rw [getPenalty_bumpPenalty, hpen_pres]
  · unfold bumpPenalty
    rw [KV.lookupEntry_put_ne _ _ _ _ _ _ (fun h => Key.noConfusion h)]
    unfold note429
    exact KV.lookupEntry_put_self _ _ _ _ _

/-- Witness for C6: empty store, 429, body `{retry_after: 3, global: true}`,
no `X-RateLimit-Global` header. -/
theorem c6_global_cooldown_from_body_witness :
    globalCooldownActive [] 1000000000000 = false ∧
    (postToDiscord [] 1000000000000 "/api/webhooks/1/a"
      (.resp { status := 429,
               body := some { retryAfter := some 3, globalFlag := some true } })).1.lookupEntry
        Key.discordGlobalCooldown =
      some ⟨Key.discordGlobalCooldown, .n (1000000000000 + 3 * 1000),
            some (1000000000000 + (3 + 1) * 1000)⟩ := by
  refine ⟨rfl, ?_⟩
  exact (c6_global_cooldown_from_body [] 1000000000000 "/api/webhooks/1/a"
    { status := 429, body := some { retryAfter := some 3, globalFlag := some true } }
    3 rfl rfl rfl rfl rfl (by norm_num)).2.1

-- ---------------------------------------------------------------------
-- C7: per-endpoint pacing
-- ---------------------------------------------------------------------

/-- `WEBHOOK_MIN_INTERVAL_MS` (source line 1158). -/
def WEBHOOK_MIN_INTERVAL_MS : Int := 8000

/-- `PACE_JITTER_MIN_MS` (source line 1161). -/
def PACE_JITTER_MIN_MS : Int := 200

/-- `PACE_JITTER_MAX_MS` (source line 1162). -/
def PACE_JITTER_MAX_MS : Int := 700

/-- The jitter draw (source lines 1184-1186):
`Math.floor(Math.random() * (700 - 200 + 1)) + 200`; the floor of
`Math.random() * 501` is passed in as `rand501 ∈ [0, 500]`. -/
def paceJitter (rand501 : Nat) : Int := (rand501 : Int) + PACE_JITTER_MIN_MS

/-- `enforceWebhookPacing` (source lines 1168-1190), returning the wait it
sleeps for.  `minMs = baseMs * (1 + 0.5 * penalty)` is rendered as
`baseMs * (2 + penalty) / 2`, exact because `baseMs` (8000 at every call
site) is even. -/
def enforceWebhookPacing (kv : KV) (now : Int) (url : String) (rand501 : Nat)
    (baseMs : Int := WEBHOOK_MIN_INTERVAL_MS) : Int :=
  let last := ((kv.get now (Key.discordLast url)).bind Val.toNum).getD 0
  let penalty := getPenalty kv now url
  let minMs := baseMs * (2 + penalty) / 2
  let baseWait := if last ≠ 0 then minMs - (now - last) else 0
  max 0 (baseWait + paceJitter rand501)

/-- C7: the pacing wait is `baseInterval · (1 + 0.5 · penalty)` minus the
time already elapsed since the endpoint's last send (zero when none),
plus a uniform jitter in [200, 700] ms, floored at zero; the multiplier
is exact (`8000 · (2+p) / 2 = 4000 · (2+p)`), `getPenalty` floors the
stored counter at 0 and `bumpPenalty` caps it at 4, so the penalty used
after any bump lies in [0, 4]. -/
theorem c7_pacing_formula (kv : KV) (now : Int) (url : String) (r : Nat)
    (hr : r ≤ 500) :
    (enforceWebhookPacing kv now url r =
      max 0 ((if ((kv.get now (Key.discordLast url)).bind Val.toNum).getD 0 ≠ 0
              then 4000 * (2 + getPenalty kv now url) -
                (now - ((kv.get now (Key.discordLast url)).bind Val.toNum).getD 0)
              else 0) + paceJitter r)) ∧
    WEBHOOK_MIN_INTERVAL_MS * (2 + getPenalty kv now url) / 2 =
      4000 * (2 + getPenalty kv now url) ∧
    0 ≤ getPenalty kv now url ∧
    getPenalty (bumpPenalty kv now url) now url = min (getPenalty kv now url + 1) 4 ∧
    0 ≤ getPenalty (bumpPenalty kv now url) now url ∧
    getPenalty (bumpPenalty kv now url) now url ≤ 4 ∧
    PACE_JITTER_MIN_MS ≤ paceJitter r ∧ paceJitter r ≤ PACE_JITTER_MAX_MS := by
  have h0 := getPenalty_nonneg kv now url
  have hdiv : WEBHOOK_MIN_INTERVAL_MS * (2 + getPenalty kv now url) / 2 =
      4000 * (2 + getPenalty kv now url) := by
    unfold WEBHOOK_MIN_INTERVAL_MS
    omega
  have hbump := getPenalty_bumpPenalty kv now url
  refine ⟨?_, hdiv, h0, hbump, ?_, ?_, ?_, ?_⟩
  · unfold enforceWebhookPacing
    dsimp only
    rw [hdiv]
  · rw [hbump]; omega
  · rw [hbump]; omega
  · unfold paceJitter PACE_JITTER_MIN_MS; omega
  · unfold paceJitter PACE_JITTER_MIN_MS PACE_JITTER_MAX_MS; omega

/-- Witness for C7: a store with a last-send stamp and penalty 2, jitter
draw 300. -/
theorem c7_pacing_formula_witness :
    (300 : Nat) ≤ 500 ∧
    enforceWebhookPacing
      (KV.put (KV.put [] 999999990000 (Key.discordLast "/api/webhooks/1/a") (.n 999999990000)
          (some 3600)) 999999990000 (Key.discordPenalty "/api/webhooks/1/a") (.n 2)
          (some 1800))
      1000000000000 "/api/webhooks/1/a" 300 = 6500 := by
  refine ⟨by norm_num, ?_⟩
  have h := (c7_pacing_formula
    (KV.put (KV.put [] 999999990000 (Key.discordLast "/api/webhooks/1/a") (.n 999999990000)
        (some 3600)) 999999990000 (Key.discordPenalty "/api/webhooks/1/a") (.n 2)
        (some 1800))
    1000000000000 "/api/webhooks/1/a" 300 (by norm_num)).1
  rw [h]
  decide

-- ---------------------------------------------------------------------
-- C8: tracked players
-- ---------------------------------------------------------------------

/-- Result of one player's check: updated store, whether a notification
was attempted, whether it was delivered. -/
structure PlayerStepResult where
  kv : KV
  attempted : Bool
  delivered : Bool
  deriving Repr

/-- The per-player body of `checkTrackedPlayers` (source lines 1256-1305)
once the profile page yielded lifetime RP `rp`; `notifyOk` is the outcome
of `notifyDiscordPlayer`. -/
def playerStep (cfg : Config) (now : Int) (pid : String) (rpNew : Int)
    (notifyOk : Bool) (kv : KV) : PlayerStepResult :=
  let sessionMin := cfg.activitySessionMin.getD 30
  let bigDelta := cfg.activityBigDelta.getD 500
  let repingMin := cfg.activityRepingMin.getD 10
  let REPING_MS := max 1 repingMin * 60000
  match kv.get now (Key.rp pid) with
  | none =>
    -- first sighting: store baseline, no alert
    ⟨kv.putIfChanged now (Key.rp pid) (.n rpNew) none, false, false⟩
  | some prevV =>
    match prevV.toNum with
    | none =>
      -- corrupted baseline (`Number` gave NaN): reset
      ⟨((kv.putIfChanged now (Key.rp pid) (.n rpNew) none).del (Key.rpActive pid)).del
          (Key.rpLast pid), false, false⟩
    | some prev =>
      if rpNew < prev then
        -- rollover: reset baseline, drop session and last-notify
        ⟨((kv.putIfChanged now (Key.rp pid) (.n rpNew) none).del (Key.rpActive pid)).del
            (Key.rpLast pid), false, false⟩
      else if prev < rpNew then
        let delta := rpNew - prev
        let isActive := (kv.get now (Key.rpActive pid)).isSome
        let lastTs := ((kv.get now (Key.rpLast pid)).bind Val.toNum).getD 0
        let canReping := lastTs = 0 ∨ now - lastTs > REPING_MS
        if ¬ isActive ∨ bigDelta ≤ delta ∨ canReping then
          let kv1 :=
            if notifyOk then
              (kv.putIfChanged now (Key.rpActive pid) (.s "1") (some (sessionMin * 60))).putIfChanged
                now (Key.rpLast pid) (.n now) none
            else kv
          ⟨kv1.putIfChanged now (Key.rp pid) (.n rpNew) none, true, notifyOk⟩
        else
          ⟨kv.putIfChanged now (Key.rp pid) (.n rpNew) none, false, false⟩
      else
        -- equal: do nothing
        ⟨kv, false, false⟩

theorem KV.lookupEntry_putIfChanged_ne (kv : KV) (now : Int) (k k' : Key) (v : Val)
    (ttl : Option Int) (h : k' ≠ k) :
    (kv.putIfChanged now k v ttl).lookupEntry k' = kv.lookupEntry k' := by
  unfold KV.putIfChanged
  match ttl with
  | some s => exact KV.lookupEntry_put_ne kv now k k' v (some s) h
  | none =>
    by_cases hc : kv.get now k = some v <;>
      simp [hc, KV.lookupEntry_put_ne kv now k k' v none h]

/-- C8: for a tracked player with an existing finite baseline `prev` and
fetched lifetime RP `rpNew > prev` (source lines 1278-1302): a
notification is attempted iff the session flag is absent, or the delta
reaches `bigDelta` (default 500), or `now − rp:last` exceeds
`repingMin` minutes (default 10; an absent `rp:last` counts as 0); on
successful delivery `rp:active:{id}` is set with TTL `sessionMin` minutes
(default 30) and `rp:last:{id}` is set to `now`; and the baseline
`rp:{id}` is advanced to `rpNew` whatever happened. -/
theorem c8_player_activity (cfg : Config) (now prev rpNew : Int) (pid : String)
    (notifyOk : Bool) (kv : KV)
    (hbase : kv.get now (Key.rp pid) = some (.n prev))
    (hgain : prev < rpNew)
    (hnow : max 1 (cfg.activityRepingMin.getD 10) * 60000 < now) :
    ((playerStep cfg now pid rpNew notifyOk kv).attempted = true ↔
      ((kv.get now (Key.rpActive pid)).isSome = false ∨
       cfg.activityBigDelta.getD 500 ≤ rpNew - prev ∨
       max 1 (cfg.activityRepingMin.getD 10) * 60000 <
         now - ((kv.get now (Key.rpLast pid)).bind Val.toNum).getD 0)) ∧
    (notifyOk = true → (playerStep cfg now pid rpNew notifyOk kv).attempted = true →
      (playerStep cfg now pid rpNew notifyOk kv).kv.lookupEntry (Key.rpActive pid) =
        some ⟨Key.rpActive pid, .s "1",
              some (now + cfg.activitySessionMin.getD 30 * 60 * 1000)⟩ ∧
      (playerStep cfg now pid rpNew notifyOk kv).kv.get now (Key.rpLast pid) =
        some (.n now)) ∧
    (playerStep cfg now pid rpNew notifyOk kv).kv.get now (Key.rp pid) = some (.n rpNew) := by
  have hnl : ¬ rpNew < prev := not_lt.mpr (le_of_lt hgain)
  have hstep : playerStep cfg now pid rpNew notifyOk kv =
      (let delta := rpNew - prev
       let isActive := (kv.get now (Key.rpActive pid)).isSome
       let lastTs := ((kv.get now (Key.rpLast pid)).bind Val.toNum).getD 0
       let canReping := lastTs = 0 ∨
         now - lastTs > max 1 (cfg.activityRepingMin.getD 10) * 60000
       if ¬ isActive ∨ cfg.activityBigDelta.getD 500 ≤ delta ∨ canReping then
         let kv1 :=
           if notifyOk then
             (kv.putIfChanged now (Key.rpActive pid) (.s "1")
               (some (cfg.activitySessionMin.getD 30 * 60))).putIfChanged
               now (Key.rpLast pid) (.n now) none
           else kv
         ⟨kv1.putIfChanged now (Key.rp pid) (.n rpNew) none, true, notifyOk⟩
       else
         ⟨kv.putIfChanged now (Key.rp pid) (.n rpNew) none, false, false⟩) := by
    unfold playerStep
    rw [hbase]
    dsimp only [Val.toNum]
    rw [if_neg hnl, if_pos hgain]
  rw [hstep]
  dsimp only
  have hreping : (((kv.get now (Key.rpLast pid)).bind Val.toNum).getD 0 = 0 ∨
      now - ((kv.get now (Key.rpLast pid)).bind Val.toNum).getD 0 >
        max 1 (cfg.activityRepingMin.getD 10) * 60000) ↔
      (max 1 (cfg.activityRepingMin.getD 10) * 60000 <
        now - ((kv.get now (Key.rpLast pid)).bind Val.toNum).getD 0) := by
    constructor
    · rintro (h0 | hgt)
      · rw [h0]; omega
      · exact hgt
    · exact fun h => Or.inr h
  split
  · rename_i hcond
    refine ⟨?_, ?_, ?_⟩
    · simp only [true_iff]
      rcases hcond with h | h | h
      · exact Or.inl (by simpa using h)
      · exact Or.inr (Or.inl h)
      · exact Or.inr (Or.inr (hreping.mp h))
    · intro hok _
      subst hok
      simp only [eq_self_iff_true, if_true]
      constructor
      · rw [KV.lookupEntry_putIfChanged_ne _ _ _ _ _ _ (fun h => Key.noConfusion h),
          KV.lookupEntry_putIfChanged_ne _ _ _ _ _ _ (fun h => Key.noConfusion h)]
        unfold KV.putIfChanged
        exact KV.lookupEntry_put_self _ _ _ _ _
      · rw [KV.get_putIfChanged_ne _ _ _ _ _ _ _ (fun h => Key.noConfusion h)]
        exact KV.get_putIfChanged_self_none _ _ _ _
    · exact KV.get_putIfChanged_self_none _ _ _ _
  · rename_i hcond
    refine ⟨?_, ?_, ?_⟩
    · simp only [Bool.false_eq_true, false_iff]
      push_neg at hcond ⊢
      obtain ⟨h1, h2, h3⟩ := hcond
      exact ⟨by simp [h1], h2, h3.2⟩
    · intro _ hfalse
      exact absurd hfalse (by simp)
    · exact KV.get_putIfChanged_self_none _ _ _ _

/-- Store for the C8 witness: baseline `rp:saz = 10000`, no session. -/
def c8Store : KV := KV.put [] 999999000000 (Key.rp "saz") (.n 10000) none

/-- Witness for C8 (the spec's "player ping" scenario): gain 450 with no
active session notifies; the baseline advances to 10450. -/
theorem c8_player_activity_witness :
    c8Store.get 1000000000000 (Key.rp "saz") = some (.n 10000) ∧
    (playerStep {} 1000000000000 "saz" 10450 true c8Store).attempted = true ∧
    (playerStep {} 1000000000000 "saz" 10450 true c8Store).kv.get 1000000000000
      (Key.rp "saz") = some (.n 10450) := by
  have h := c8_player_activity {} 1000000000000 10000 10450 "saz" true c8Store
    (by decide) (by norm_num) (by norm_num)
  exact ⟨by decide, h.1.mpr (Or.inl (by decide)), h.2.2⟩

-- ---------------------------------------------------------------------
-- Parser primitives (slug, normText, relative times, row regexes)
-- ---------------------------------------------------------------------

/-- Characters trimmed from leading/trailing position. -/
def trimChars (l : List Char) : List Char :=
  ((l.dropWhile isWsChar).reverse.dropWhile isWsChar).reverse

/-- JS `\w` (ASCII word character). -/
def isWordChar (c : Char) : Bool := c.isAlpha || c.isDigit || c = '_'

/-- `\b` to the right of a match: next char absent or not a word char. -/
def wordBoundaryOk : List Char → Bool
  | [] => true
  | c :: _ => !isWordChar c

/-- `[a-z0-9]` as kept by `slug` (source lines 201-206). -/
def isSlugChar (c : Char) : Bool := (('a' ≤ c && c ≤ 'z') || ('0' ≤ c && c ≤ '9'))

/-- Collapse each maximal run of non-slug characters into one `-`
(`replace(/[^a-z0-9]+/g, "-")`); the flag records whether the current run
already emitted its dash. -/
def slugRunsAux : Bool → List Char → List Char
  | _, [] => []
  | pendingDash, c :: rest =>
    if isSlugChar c then c :: slugRunsAux false rest
    else if pendingDash then slugRunsAux true rest
    else '-' :: slugRunsAux true rest

/-- `slug` (source lines 201-206): lowercase, collapse non-alphanumeric
runs to `-`, strip one leading and one trailing dash
(`replace(/(^-|-$)/g, "")`). -/
def slug (s : String) : String :=
  let l := slugRunsAux false (s.data.map Char.toLower)
  let l1 := match l with
    | '-' :: r => r
    | _ => l
  let l2 := match l1.reverse with
    | '-' :: r => r.reverse
    | _ => l1
  ⟨l2⟩

/-- Case-insensitive literal match: consume `pat` (given lowercase) from
the head of `l`, lowering `l`'s characters for comparison. -/
def matchLitCI : List Char → List Char → Option (List Char)
  | [], l => some l
  | _, [] => none
  | p :: ps, c :: cs => if c.toLower = p then matchLitCI ps cs else none

/-- `\s+` (greedy; the literal that follows always starts with a
non-space character, so no backtracking is needed). -/
def matchWs1 : List Char → Option (List Char)
  | [] => none
  | c :: cs => if isWsChar c then some (cs.dropWhile isWsChar) else none

/-- Decimal digits to their numeric value (`Number(m[1])`). -/
def digitsToNat (l : List Char) : Nat :=
  l.foldl (fun n c => n * 10 + (c.toNat - '0'.toNat)) 0

/-- The unit alternation of `parseRelative` (source line 253), in source
order.  The trailing `\b` makes the earliest alternative that is also
word-terminated win, which is what JS backtracking produces. -/
def relUnitWords : List (List Char) :=
  ["m", "min", "mins", "minute", "minutes", "h", "hr", "hrs", "hour", "hours",
   "d", "day", "days"].map String.data

/-- Try the unit alternation (with its `\b`) at the head of `l`. -/
def matchUnitAt (l : List Char) : Option Char :=
  relUnitWords.findSome? (fun w =>
    if w.isPrefixOf l && wordBoundaryOk (l.drop w.length) then w.headD 'm' else none)

/-- Scan for the first position where `(\d+)\s*(unit)\b` matches
(source line 252): at each digit, take the maximal digit run, optional
whitespace, then the unit alternation; otherwise move on. -/
def scanNumUnit : List Char → Option (Nat × Char)
  | [] => none
  | c :: rest =>
    if c.isDigit then
      let ds := (c :: rest).takeWhile Char.isDigit
      let after := ((c :: rest).dropWhile Char.isDigit).dropWhile isWsChar
      match matchUnitAt after with
      | some u => some (digitsToNat ds, u)
      | none => scanNumUnit rest
    else scanNumUnit rest

/-- Remove every `\bago\b` (global replace over the original string; the
flag tracks whether the previous original character was a word char). -/
def removeAgoAux : Bool → List Char → List Char
  | _, [] => []
  | prevW, 'a' :: 'g' :: 'o' :: rest =>
    if !prevW && wordBoundaryOk rest then removeAgoAux true rest
    else 'a' :: removeAgoAux true ('g' :: 'o' :: rest)
  | _, c :: rest => c :: removeAgoAux (isWordChar c) rest

/-- The normalization of `parseRelative` (source lines 246-250):
lowercase, strip `(` `)`, drop `\bago\b`, trim. -/
def normalizeRel (s : String) : List Char :=
  trimChars (removeAgoAux false
    ((s.data.map Char.toLower).filter (fun c => !(c = '(' || c = ')'))))

/-- The number-plus-unit match of `parseRelative`. -/
def relMatch (s : String) : Option (Nat × Char) := scanNumUnit (normalizeRel s)

/-- `parseRelative` (source lines 244-262): offset in ms plus the bucket
token; no match gives offset 0 and bucket `"now"`. -/
def parseRelative (s : String) : Int × String :=
  match relMatch s with
  | none => (0, "now")
  | some (n, u) =>
    let ms : Int := if u = 'm' then (n : Int) * 60000
      else if u = 'h' then (n : Int) * 3600000
      else (n : Int) * 86400000
    (ms, toString n ++ ⟨[u]⟩)

/-- `relToIsoBucketed` (source lines 607-617): instant `now - ms - idx·step`
where `idx` counts earlier same-bucket rows; returns the updated counts. -/
def relToIsoBucketed (s : String) (bucketCounts : List (String × Nat)) (now : Int)
    (stepMs : Int := 60000) : Int × List (String × Nat) :=
  let p := parseRelative s
  let idx := ((bucketCounts.find? (fun q => q.1 == p.2)).map Prod.snd).getD 0
  (now - p.1 - (idx : Int) * stepMs,
   (p.2, idx + 1) :: bucketCounts.filter (fun q => q.1 != p.2))

/-- The lazy `^(.+?) ` split: scan left to right for the first space
whose preceding prefix is nonempty and whose suffix satisfies `tail`;
`.` does not match a newline, so a newline aborts the scan.  `acc` is the
reversed prefix consumed so far. -/
def lazySplit {α : Type} (tail : List Char → Option α) :
    List Char → List Char → Option (List Char × α)
  | _, [] => none
  | acc, c :: rest =>
    if c = ' ' then
      if acc ≠ [] then
        match tail rest with
        | some a => some (acc.reverse, a)
        | none => lazySplit tail (c :: acc) rest
      else lazySplit tail (c :: acc) rest
    else if c = '\n' then none
    else lazySplit tail (c :: acc) rest

/-- `(Albion|Midgard|Hibernia)` under `/i`, capturing the original-case
text (`m[2]`, cast `as Realm` by the source). -/
def matchRealmTok (l : List Char) : Option (String × List Char) :=
  match matchLitCI "albion".data l with
  | some rest => some (⟨l.take 6⟩, rest)
  | none =>
    match matchLitCI "midgard".data l with
    | some rest => some (⟨l.take 7⟩, rest)
    | none =>
      match matchLitCI "hibernia".data l with
      | some rest => some (⟨l.take 8⟩, rest)
      | none => none

/-- `(?:the\s+forces\s+of\s+)?` — the consuming variant. -/
def matchForcesOf (l : List Char) : Option (List Char) :=
  match matchLitCI "the".data l with
  | none => none
  | some r1 =>
    match matchWs1 r1 with
    | none => none
    | some r2 =>
      match matchLitCI "forces".data r2 with
      | none => none
      | some r3 =>
        match matchWs1 r3 with
        | none => none
        | some r4 =>
          match matchLitCI "of".data r4 with
          | none => none
          | some r5 => matchWs1 r5

/-- `(?:\s+led\s+by\s+(.+))?` — the optional leader suffix; `(.+)` is
greedy, cannot cross a newline, and needs at least one character. -/
def matchLeaderOpt (rest : List Char) : Option String :=
  match matchWs1 rest with
  | none => none
  | some r4 =>
    match matchLitCI "led".data r4 with
    | none => none
    | some r5 =>
      match matchWs1 r5 with
      | none => none
      | some r6 =>
        match matchLitCI "by".data r6 with
        | none => none
        | some r7 =>
          match matchWs1 r7 with
          | none => none
          | some r8 =>
            let ld := r8.takeWhile (fun c => c ≠ '\n')
            if ld ≠ [] then some ⟨ld⟩ else none

/-- The suffix of the capture regex after the lazy prefix (source lines
717-719): `(?:has been|was)\s+captured by (?:the\s+forces\s+of\s+)?`
`(Albion|Midgard|Hibernia)(?:\s+led\s+by\s+(.+))?` with NO end anchor.
Returns (`m[2]` raw realm text, optional `m[3]`). -/
def matchCapTail (l : List Char) : Option (String × Option String) :=
  let afterVerb :=
    match matchLitCI "has been".data l with
    | some r => some r
    | none => matchLitCI "was".data l
  match afterVerb with
  | none => none
  | some r1 =>
    match matchWs1 r1 with
    | none => none
    | some r2 =>
      match matchLitCI "captured by ".data r2 with
      | none => none
      | some r3 =>
        let tryRealm := fun (l' : List Char) =>
          match matchRealmTok l' with
          | some (o, rest) => some (o, matchLeaderOpt rest)
          | none => none
        match matchForcesOf r3 with
        | some r3' =>
          match tryRealm r3' with
          | some res => some res
          | none => tryRealm r3  -- backtrack out of the optional group
        | none => tryRealm r3

/-- The capture row matcher (source lines 717-723): `m[1].trim()`,
`m[2] as Realm`, `m[3]?.trim() ?? null`. -/
def matchCaptureCode (text : String) : Option (String × String × Option String) :=
  (lazySplit matchCapTail [] text.data).map
    (fun p => (jsTrim ⟨p.1⟩, p.2.1, p.2.2.map jsTrim))

/-- The suffix of the under-attack regex (source line 735):
`(?:is|was) under attack`, no end anchor. -/
def matchUATail (l : List Char) : Option Unit :=
  let afterVerb :=
    match matchLitCI "is".data l with
    | some r => some r
    | none => matchLitCI "was".data l
  match afterVerb with
  | none => none
  | some r1 => (matchLitCI " under attack".data r1).map (fun _ => ())

/-- The under-attack row matcher (source lines 735-737). -/
def matchUACode (text : String) : Option String :=
  (lazySplit matchUATail [] text.data).map (fun p => jsTrim ⟨p.1⟩)

/-- One event-table row (source lines 709-747): try the capture pattern,
then the under-attack pattern; otherwise no event. -/
def rowToEvent (text : String) (atMs : Int) : Option Event :=
  match matchCaptureCode text with
  | some (k, o, ld) =>
    some { atMs := atMs, kind := .captured, keepId := slug k, keepName := k,
           newOwner := some o, raw := text,
           leader := match ld with
             | some s => if s ≠ "" then some s else none  -- `...(leader ? {leader} : {})`
             | none => none }
  | none =>
    match matchUACode text with
    | some k =>
      some { atMs := atMs, kind := .underAttack, keepId := slug k, keepName := k,
             raw := text }
    | none => none

/-- Where the lazy split succeeds: exactly when some space splits the
input into a nonempty newline-free prefix (the candidate `(.+?)` match;
when `acc` is nonempty the prefix may also be empty because characters
were already consumed) and a suffix accepted by `tail`. -/
theorem lazySplit_isSome_iff {α : Type} (tail : List Char → Option α) :
    ∀ (l acc : List Char),
    (lazySplit tail acc l).isSome ↔
      ∃ pre post, l = pre ++ ' ' :: post ∧ (acc ≠ [] ∨ pre ≠ []) ∧ '\n' ∉ pre ∧
        (tail post).isSome := by
  intro l
  induction l with
  | nil =>
    intro acc
    simp [lazySplit]
  | cons c rest ih =>
    intro acc
    have hsplitR : (∃ pre post, c :: rest = pre ++ ' ' :: post ∧ (acc ≠ [] ∨ pre ≠ []) ∧
        '\n' ∉ pre ∧ (tail post).isSome) ↔
        ((c = ' ' ∧ acc ≠ [] ∧ (tail rest).isSome) ∨
         (c ≠ '\n' ∧ ∃ pre' post, rest = pre' ++ ' ' :: post ∧ '\n' ∉ pre' ∧
           (tail post).isSome)) := by
      constructor
      · rintro ⟨pre, post, heq, hne, hnl, ht⟩
        cases pre with
        | nil =>
          simp at heq
          rcases hne with hne | hne
          · exact Or.inl ⟨heq.1, hne, heq.2 ▸ ht⟩
          · exact absurd rfl hne
        | cons p pre' =>
          simp at heq
          obtain ⟨rfl, hrest⟩ := heq
          simp at hnl
          exact Or.inr ⟨fun h => hnl.1 h.symm, pre', post, hrest, hnl.2, ht⟩
      · rintro (⟨rfl, hacc, ht⟩ | ⟨hcn, pre', post, hrest, hnl, ht⟩)
        · exact ⟨[], rest, rfl, Or.inl hacc, by simp, ht⟩
        · exact ⟨c :: pre', post, by simp [hrest], Or.inr (by simp), by
            simp
            exact ⟨fun h => hcn h.symm, hnl⟩, ht⟩
    rw [hsplitR]
    by_cases hsp : c = ' '
    · subst hsp
      by_cases hacc : acc = []
      · subst hacc
        rw [show lazySplit tail [] (' ' :: rest) = lazySplit tail [' '] rest by
          simp [lazySplit]]
        rw [ih [' ']]
        constructor
        · rintro ⟨pre', post, hrest, _, hnl, ht⟩
          exact Or.inr ⟨by decide, pre', post, hrest, hnl, ht⟩
        · rintro (⟨_, hne, _⟩ | ⟨_, pre', post, hrest, hnl, ht⟩)
          · exact absurd rfl hne
          · exact ⟨pre', post, hrest, Or.inl (by simp), hnl, ht⟩
      · match htr : tail rest with
        | some a =>
          rw [show lazySplit tail acc (' ' :: rest) = some (acc.reverse, a) by
            simp [lazySplit, hacc, htr]]
          constructor
          · intro _
            exact Or.inl ⟨rfl, hacc, by simp [htr]⟩
          · intro _
            rfl
        | none =>
          rw [show lazySplit tail acc (' ' :: rest) = lazySplit tail (' ' :: acc) rest by
            simp [lazySplit, hacc, htr]]
          rw [ih (' ' :: acc)]
          constructor
          · rintro ⟨pre', post, hrest, _, hnl, ht⟩
            exact Or.inr ⟨by decide, pre', post, hrest, hnl, ht⟩
          · rintro (⟨_, _, ht⟩ | ⟨_, pre', post, hrest, hnl, ht⟩)
            · simp [htr] at ht
            · exact ⟨pre', post, hrest, Or.inl (by simp), hnl, ht⟩
    · by_cases hnlc : c = '\n'
      · subst hnlc
        rw [show lazySplit tail acc ('\n' :: rest) = none by simp [lazySplit]]
        simp only [Option.isSome_none, Bool.false_eq_true, false_iff]
        rintro (⟨heq, _, _⟩ | ⟨hcn, _, _, _, _, _⟩)
        · exact hsp heq
        · exact hcn rfl
      · rw [show lazySplit tail acc (c :: rest) = lazySplit tail (c :: acc) rest by
          simp [lazySplit, hsp, hnlc]]
        rw [ih (c :: acc)]
        constructor
        · rintro ⟨pre', post, hrest, _, hnl, ht⟩
          exact Or.inr ⟨hnlc, pre', post, hrest, hnl, ht⟩
        · rintro (⟨heq, _, _⟩ | ⟨_, pre', post, hrest, hnl, ht⟩)
          · exact absurd heq hsp
          · exact ⟨pre', post, hrest, Or.inl (by simp), hnl, ht⟩

-- ---------------------------------------------------------------------
-- C9: the capture row pattern
-- ---------------------------------------------------------------------

/-- The optional leader suffix WITH the end anchor the spec claims:
`( led by (.+))?$` — `(.+)$` must consume the entire remainder (and `.`
still cannot cross a newline). -/
def matchLeaderOptAnchored (rest : List Char) : Option String :=
  match matchWs1 rest with
  | none => none
  | some r4 =>
    match matchLitCI "led".data r4 with
    | none => none
    | some r5 =>
      match matchWs1 r5 with
      | none => none
      | some r6 =>
        match matchLitCI "by".data r6 with
        | none => none
        | some r7 =>
          match matchWs1 r7 with
          | none => none
          | some r8 =>
            if r8 ≠ [] ∧ '\n' ∉ r8 then some ⟨r8⟩ else none

/-- The capture pattern AS THE SPEC WRITES IT (section 4.1): the same
suffix as `matchCapTail` but anchored at the end with `$`: after the
realm either the input ends, or the led-by group consumes everything. -/
def matchCapTailSpec (l : List Char) : Option (String × Option String) :=
  let afterVerb :=
    match matchLitCI "has been".data l with
    | some r => some r
    | none => matchLitCI "was".data l
  match afterVerb with
  | none => none
  | some r1 =>
    match matchWs1 r1 with
    | none => none
    | some r2 =>
      match matchLitCI "captured by ".data r2 with
      | none => none
      | some r3 =>
        let tryRealm := fun (l' : List Char) =>
          match matchRealmTok l' with
          | some (o, rest) =>
            if rest = [] then some (o, (none : Option String))
            else
              match matchLeaderOptAnchored rest with
              | some ld => some (o, some ld)
              | none => none
          | none => none
        match matchForcesOf r3 with
        | some r3' =>
          match tryRealm r3' with
          | some res => some res
          | none => tryRealm r3
        | none => tryRealm r3

/-- Modelled from the spec: recognition by the doubly-anchored pattern
`^(.+?) (has been|was) captured by (the forces of )?`
`(Albion|Midgard|Hibernia)( led by (.+))?$` that claim C9 states. -/
def matchCaptureSpec (text : String) : Option (String × String × Option String) :=
  (lazySplit matchCapTailSpec [] text.data).map
    (fun p => (jsTrim ⟨p.1⟩, p.2.1, p.2.2.map jsTrim))

/-- C9, counterexample: the source regex (source lines 717-719) has no
`$`, so a row with trailing text after the realm is recognized as a
capture event even though it does NOT match the spec's doubly-anchored
pattern. -/
theorem c9_counterexample :
    ((rowToEvent "Caer Benowyc was captured by Albion and friends" 0).map Event.kind =
      some EvKind.captured) ∧
    matchCaptureSpec "Caer Benowyc was captured by Albion and friends" = none := by
  constructor
  · decide
  · decide

/-- C9 (amended): a parsed event row is recognized as a capture event
exactly when the SOURCE pattern matches — i.e. `^(.+?) ` splits the text
at some space into a nonempty newline-free prefix and a suffix accepted
by `(?:has been|was)\s+captured by (?:the\s+forces\s+of\s+)?`
`(Albion|Midgard|Hibernia)(?:\s+led\s+by\s+(.+))?` with NO end anchor
(case-insensitively, arbitrary trailing text allowed) — and in that case
`keepName`, `newOwner` and the optional `leader` are extracted from the
corresponding groups (trimmed; an empty trimmed leader is dropped). -/
theorem c9_capture_recognition (text : String) (atMs : Int) :
    (((rowToEvent text atMs).map Event.kind = some EvKind.captured) ↔
      ∃ pre post, text.data = pre ++ ' ' :: post ∧ pre ≠ [] ∧ '\n' ∉ pre ∧
        (matchCapTail post).isSome) ∧
    (∀ k o ld, matchCaptureCode text = some (k, o, ld) →
      rowToEvent text atMs =
        some { atMs := atMs, kind := .captured, keepId := slug k,
               keepName := k, newOwner := some o, raw := text,
               leader := (match ld with
                          | some s => if s ≠ "" then some s else none
                          | none => none) }) := by
  constructor
  · have h1 : ((rowToEvent text atMs).map Event.kind = some EvKind.captured) ↔
        (matchCaptureCode text).isSome = true := by
      unfold rowToEvent
      match hmc : matchCaptureCode text with
      | some (k, o, ld) => simp
      | none =>
        match hua : matchUACode text with
        | some k => simp
        | none => simp
    rw [h1]
    unfold matchCaptureCode
    rw [Option.isSome_map']
    rw [lazySplit_isSome_iff]
    constructor
    · rintro ⟨pre, post, heq, hne, hnl, ht⟩
      rcases hne with hne | hne
      · exact absurd rfl hne
      · exact ⟨pre, post, heq, hne, hnl, ht⟩
    · rintro ⟨pre, post, heq, hne, hnl, ht⟩
      exact ⟨pre, post, heq, Or.inr hne, hnl, ht⟩
  · intro k o ld hm
    unfold rowToEvent
    rw [hm]

/-- Witness for the amended C9 on a canonical row. -/
theorem c9_capture_recognition_witness :
    ((rowToEvent "Caer Benowyc was captured by Midgard" 0).map Event.kind =
      some EvKind.captured) ∧
    rowToEvent "Caer Benowyc has been captured by the forces of Midgard led by Saz" 0 =
      some { atMs := 0, kind := .captured, keepId := "caer-benowyc",
             keepName := "Caer Benowyc", newOwner := some "Midgard",
             raw := "Caer Benowyc has been captured by the forces of Midgard led by Saz",
             leader := some "Saz" } := by
  constructor
  · exact (c9_capture_recognition "Caer Benowyc was captured by Midgard" 0).1.mpr
      ⟨"Caer Benowyc".data, "was captured by Midgard".data, by decide, by decide,
       by decide, by decide⟩
  · have h := (c9_capture_recognition
      "Caer Benowyc has been captured by the forces of Midgard led by Saz" 0).2
      "Caer Benowyc" "Midgard" (some "Saz") (by decide)
    rw [h]
    decide

-- ---------------------------------------------------------------------
-- C10: unparseable relative times
-- ---------------------------------------------------------------------

/-- C10: when a row's relative-time cell does not match the
number-plus-unit pattern, `parseRelative` yields offset 0 and bucket
`"now"` (source line 255), so the first such row of a parse is assigned
the current instant by `relToIsoBucketed`; `now - now = 0` is inside any
capture window, so an unparseable-time `captured` row passes the
freshness gate and — with the dedupe gates clear — is queued for a
capture alert by the events path. -/
theorem c10_unparseable_time_counts_as_fresh (s : String) (hnm : relMatch s = none) :
    parseRelative s = (0, "now") ∧
    (∀ now : Int, (relToIsoBucketed s [] now).1 = now) ∧
    (∀ (cfg : Config) (now upd : Int) (ev : Event) (deliver : Nat → Bool)
       (ks : List Keep) (dfo : Realm),
      ev.kind = .captured → ev.atMs = (relToIsoBucketed s [] now).1 →
      (alertOnRecentCapturesFromEvents cfg now deliver ⟨upd, ks, [ev], dfo⟩ []).batch ≠ []) := by
  have hpr : parseRelative s = (0, "now") := by
    unfold parseRelative
    rw [hnm]
  have hrel : ∀ now : Int, (relToIsoBucketed s [] now).1 = now := by
    intro now
    unfold relToIsoBucketed
    rw [hpr]
    simp
  refine ⟨hpr, hrel, ?_⟩
  intro cfg now upd ev deliver ks dfo hk hat
  have hfresh : ¬ (now - ev.atMs > captureWindowMs cfg) := by
    rw [hat, hrel now]
    have hpos : 0 < captureWindowMs cfg := by
      unfold captureWindowMs
      have h1 : (1 : Int) ≤ max 1 (cfg.captureWindowMin.getD 12) := le_max_left 1 _
      nlinarith
    omega
  have hq := eventsQueueStep_queues cfg now [] [] ev hk hfresh rfl rfl rfl rfl
  unfold alertOnRecentCapturesFromEvents
  dsimp only
  rw [List.foldl_cons, List.foldl_nil]
  split
  · dsimp only
    rw [hq]
    simp
  · dsimp only
    rw [hq]
    simp

/-- Witness for C10 at the cell text `"(whenever)"`. -/
theorem c10_unparseable_time_counts_as_fresh_witness :
    relMatch "(whenever)" = none ∧
    parseRelative "(whenever)" = (0, "now") ∧
    (alertOnRecentCapturesFromEvents {} 1000000000000 (fun _ => true)
      ⟨1000000000000, [],
       [{ atMs := (relToIsoBucketed "(whenever)" [] 1000000000000).1, kind := .captured,
          keepId := "caer-benowyc", keepName := "Caer Benowyc",
          newOwner := some "Midgard" }], "Midgard"⟩ []).batch ≠ [] := by
  have h := c10_unparseable_time_counts_as_fresh "(whenever)" (by decide)
  exact ⟨by decide, h.1,
    h.2.2 {} 1000000000000 1000000000000 _ (fun _ => true) [] "Midgard" rfl rfl⟩

-- ---------------------------------------------------------------------
-- C3: buildWarmapFromHtml and the canonical hash
-- ---------------------------------------------------------------------

/-- Collapse each whitespace run to a single space
(`replace(/\s+/g, " ")`); the flag records a pending run. -/
def collapseWsAux : Bool → List Char → List Char
  | _, [] => []
  | pend, c :: rest =>
    if isWsChar c then
      if pend then collapseWsAux true rest else ' ' :: collapseWsAux true rest
    else c :: collapseWsAux false rest

/-- `normText` (source lines 208-216): NBSP to space, drop `()!?:`,
collapse whitespace, lowercase, trim. -/
def normText (s : String) : String :=
  let l0 := s.data.map (fun c => if c = Char.ofNat 160 then ' ' else c)
  let l1 := l0.filter (fun c => !(c = '(' || c = ')' || c = '!' || c = '?' || c = ':'))
  ⟨trimChars ((collapseWsAux false l1).map Char.toLower)⟩

/-- Substring test (JS `/needle/.test(hay)` for a literal needle). -/
def containsSub (needle : List Char) : List Char → Bool
  | [] => needle.isEmpty
  | c :: rest => needle.isPrefixOf (c :: rest) || containsSub needle rest

/-- `\bunder\s*attack\b` at the head of `l` (the caller checks the left
boundary). -/
def underAttackAt (l : List Char) : Bool :=
  "under".data.isPrefixOf l &&
    (let r := (l.drop 5).dropWhile isWsChar
     "attack".data.isPrefixOf r && wordBoundaryOk (r.drop 6))

/-- Scan for `\bunder\s*attack\b`; the flag is whether the previous
character was a word character (left `\b`). -/
def hasUAScan : Bool → List Char → Bool
  | _, [] => false
  | prevW, c :: rest => (!prevW && underAttackAt (c :: rest)) || hasUAScan (isWordChar c) rest

/-- `hasUnderAttack` (source lines 222-224). -/
def hasUnderAttack (s : String) : Bool := hasUAScan false (normText s).data

/-- `line.replace(/^claimed\s*by\s*:\s*/i, "").trim()` (source line 679). -/
def stripClaimedBy (line : String) : String :=
  let rest :=
    match matchLitCI "claimed".data line.data with
    | some r1 =>
      match matchLitCI "by".data (r1.dropWhile isWsChar) with
      | some r3 =>
        match r3.dropWhile isWsChar with
        | ':' :: r5 => some (r5.dropWhile isWsChar)
        | _ => none
      | none => none
    | none => none
  match rest with
  | some r => jsTrim ⟨r⟩
  | none => jsTrim line

/-- The bottom-up `claimedBy` scan (source lines 665-681); call with the
trimmed nonempty header lines reversed. -/
def claimedByScan (name : String) : List String → Option String
  | [] => none
  | line :: rest =>
    let nline := normText line
    if nline = normText name || containsSub "level".data nline.data ||
        containsSub "emblem".data nline.data || hasUnderAttack line then
      claimedByScan name rest
    else some (stripClaimedBy line)

/-- First `keepinfo_(alb|mid|hib|albion|midgard|hibernia)` group in the
(lowercased) class attribute (source lines 633-636); alternatives are
tried in source order at each position. -/
def keepinfoRealmKey : List Char → Option String
  | [] => none
  | c :: rest =>
    if "keepinfo_".data.isPrefixOf (c :: rest) then
      let after := (c :: rest).drop 9
      if "alb".data.isPrefixOf after then some "alb"
      else if "mid".data.isPrefixOf after then some "mid"
      else if "hib".data.isPrefixOf after then some "hib"
      else if "albion".data.isPrefixOf after then some "albion"
      else if "midgard".data.isPrefixOf after then some "midgard"
      else if "hibernia".data.isPrefixOf after then some "hibernia"
      else keepinfoRealmKey rest
    else keepinfoRealmKey rest

/-- `ownerMap[k] ?? "Albion"` (source lines 99-106, 637). -/
def ownerMap (k : String) : Realm :=
  if k = "alb" || k = "albion" then "Albion"
  else if k = "mid" || k = "midgard" then "Midgard"
  else if k = "hib" || k = "hibernia" then "Hibernia"
  else "Albion"

/-- First `/level\s+(\d+)/i` match (source lines 640-642). -/
def levelScan : List Char → Option Int
  | [] => none
  | c :: rest =>
    match matchLitCI "level".data (c :: rest) with
    | some r1 =>
      match matchWs1 r1 with
      | some r2 =>
        let ds := r2.takeWhile Char.isDigit
        if ds ≠ [] then some ((digitsToNat ds : Nat) : Int) else levelScan rest
      | none => levelScan rest
    | none => levelScan rest

/-- What the per-keep DOM extraction of `buildWarmapFromHtml` (source
lines 625-658) reads out of one `div.keepinfo`.  `node-html-parser` is a
pure function of the HTML bytes, so these fields are functions of the
input document; the clock never enters them. -/
structure KeepDiv where
  strongText : Option String := none
  idAttr : Option String := none
  classAttr : String := ""
  smallText : Option String := none
  emblemResolved : Option String := none
  headerLines : List String := []
  headerUA : Bool := false
  deriving DecidableEq, Repr

/-- `name` fallback chain `strong?.text.trim() || id?.replace(/_/g," ")`
`|| "Unknown"` (source lines 627-630). -/
def keepNameOf (d : KeepDiv) : String :=
  let fromId :=
    match d.idAttr with
    | some i =>
      let r : String := ⟨i.data.map (fun c => if c = '_' then ' ' else c)⟩
      if r ≠ "" then r else "Unknown"
    | none => "Unknown"
  match d.strongText with
  | some s => let t := jsTrim s; if t ≠ "" then t else fromId
  | none => fromId

/-- One keep record from one `div.keepinfo` (source lines 625-698). -/
def keepOfDiv (d : KeepDiv) : Keep :=
  let name := keepNameOf d
  let realmKey := (keepinfoRealmKey (d.classAttr.data.map Char.toLower)).getD "alb"
  let lines := (d.headerLines.map jsTrim).filter (fun l => l ≠ "")
  let claimedBy :=
    match claimedByScan name lines.reverse with
    | some cb => if cb ≠ "" && hasUnderAttack cb then none else some cb
    | none => none
  { id := slug name, name := name, owner := ownerMap realmKey,
    underAttack := d.headerUA, headerUnderAttack := d.headerUA,
    level := match d.smallText with | some s => levelScan s.data | none => none,
    claimedBy := claimedBy, emblem := d.emblemResolved, lastEvent := none }

/-- The events-table loop (source lines 704-747): every row advances the
bucket counters; matching rows become events in row order. -/
def buildEvents (rows : List (String × String)) (now : Int) : List Event :=
  (rows.foldl (fun (acc : List Event × List (String × Nat)) row =>
    let text : String := ⟨trimChars (collapseWsAux false row.1.data)⟩
    let r := relToIsoBucketed (jsTrim row.2) acc.2 now
    match rowToEvent text r.1 with
    | some e => (acc.1 ++ [e], r.2)
    | none => (acc.1, r.2)) ([], [])).1

/-- Mark under-attack on the keep a UA event refers to; `byId` is built
with `new Map`, so the LAST keep with the id is the referenced object. -/
def setUAOnFirstRev : List Keep → String → Int → List Keep
  | [], _, _ => []
  | k :: ks, id, t =>
    if k.id = id then { k with underAttack := true, lastEvent := some t } :: ks
    else k :: setUAOnFirstRev ks id t

/-- See `setUAOnFirstRev`. -/
def setUAOnLast (ks : List Keep) (id : String) (t : Int) : List Keep :=
  (setUAOnFirstRev ks.reverse id t).reverse

/-- Apply the attack window to the keeps (source lines 749-760). -/
def applyUAWindow (keeps : List Keep) (events : List Event) (windowMs now : Int) :
    List Keep :=
  events.foldl (fun ks ev =>
    if ev.kind = .underAttack then
      if now - ev.atMs ≤ windowMs then setUAOnLast ks ev.keepId ev.atMs else ks
    else ks) keeps

/-- Stable descending sort by instant (`events.sort((a,b) => b.at - a.at)`
under V8's stable sort): insert each event after all not-later ones. -/
def insertByAtDesc (e : Event) : List Event → List Event
  | [] => [e]
  | x :: xs => if x.atMs < e.atMs then e :: x :: xs else x :: insertByAtDesc e xs

/-- See `insertByAtDesc`. -/
def sortEventsDesc (l : List Event) : List Event :=
  l.foldl (fun acc e => insertByAtDesc e acc) []

/-- `parseDfOwner` (source lines 269-277) from the DF image src. -/
def parseDfOwner (dfImgSrc : Option String) : Realm :=
  let src := (dfImgSrc.getD "").data.map Char.toLower
  if containsSub "alb".data src then "Albion"
  else if containsSub "mid".data src then "Midgard"
  else if containsSub "hib".data src then "Hibernia"
  else "Midgard"

/-- The DOM reads `buildWarmapFromHtml` makes: keep panels, event-table
rows (`(tds[0].text, last td text)` for rows with at least two cells) and
the DF image src.  All are pure functions of the HTML document. -/
structure PageParts where
  keepDivs : List KeepDiv := []
  rows : List (String × String) := []
  dfImgSrc : Option String := none
  deriving DecidableEq, Repr

/-- `buildWarmapFromHtml` (source lines 619-769) given the extracted DOM
parts; `now` is the wall clock (`Date.now()` / `new Date()`), which
enters through every event instant and `updatedAt`. -/
def buildWarmapFromHtml (parts : PageParts) (attackWindowMin : Int) (now : Int) :
    WarmapData :=
  let keeps := parts.keepDivs.map keepOfDiv
  let events := buildEvents parts.rows now
  { updatedAt := now,
    keeps := applyUAWindow keeps events (attackWindowMin * 60000) now,
    dfOwner := parseDfOwner parts.dfImgSrc,
    events := (sortEventsDesc events).take 200 }

/-- `packForHash` (source lines 279-285): the canonical hash content is
`JSON.stringify({keeps, events, dfOwner})`.  `JSON.stringify` is
injective on these records (fixed field sets per event kind, ISO strings
injective in the instants), so hash equality is equality of this
triple. -/
def packForHash (wm : WarmapData) : List Keep × List Event × Realm :=
  (wm.keeps, wm.events, wm.dfOwner)

/-- The C3 counterexample page: one capture row aged "2m ago". -/
def c3Parts : PageParts := { rows := [("Foo was captured by Albion", "2m ago")] }

/-- C3, counterexample: parsing the same HTML twice, one minute apart,
yields snapshots with DIFFERENT canonical hashes — the event instants are
synthesized from `Date.now()` (`relToIsoBucketed`, source lines 607-617),
so they, and hence `packForHash`, move with the clock. -/
theorem c3_counterexample :
    packForHash (buildWarmapFromHtml c3Parts 7 1000000000000) ≠
      packForHash (buildWarmapFromHtml c3Parts 7 1000000060000) := by
  decide

/-- C3 (amended): two parses of the same HTML at the SAME clock instant
yield snapshots with equal canonical hashes, and the hash never depends
on `updatedAt` — it is exactly the (keeps, events, dfOwner) content.
(Parses at different instants can differ; see the counterexample.) -/
theorem c3_hash_same_instant (parts : PageParts) (w now : Int) :
    (packForHash (buildWarmapFromHtml parts w now) =
      packForHash (buildWarmapFromHtml parts w now)) ∧
    (∀ wm wm' : WarmapData, wm.keeps = wm'.keeps → wm.events = wm'.events →
      wm.dfOwner = wm'.dfOwner → packForHash wm = packForHash wm') := by
  refine ⟨rfl, ?_⟩
  intro wm wm' hk he hd
  unfold packForHash
  rw [hk, he, hd]

/-- Witness for the amended C3 at the counterexample page. -/
theorem c3_hash_same_instant_witness :
    packForHash (buildWarmapFromHtml c3Parts 7 1000000000000) =
      packForHash (buildWarmapFromHtml c3Parts 7 1000000000000) :=
  (c3_hash_same_instant c3Parts 7 1000000000000).1
